import Mathlib

/-!
Verification model of the PDF-Maker repository (src/pdfmaker.py).

The file shallowly embeds the document flow and pagination engine of the
`Document` class. Page geometry, margins and all measured heights are
integers (`Int`). The source works with Python floats, but every
control decision of the engine (page-break checks, the backward
searches) is an additive comparison, for which integer geometry is an
exact sub-model; division only occurs in drawn x/y coordinates (the
centering halving and the uniform column width), which never feed back
into control flow, and is modelled by integer division. The drawing
surface (reportlab) and the image decoder (PIL) are external
collaborators; they are modelled by an `Env` of measurement functions,
and every drawing call is recorded as an `Event` in the document state,
tagged with the index of the page it lands on.

The recursive placement loops of `add_section` and `add_table` and the
mutual recursion between `new_page`, `add_image` (template replay) and
`verify_page_break` do not structurally terminate, so the operations are
interpreted by a fuel-indexed step function `exec`. Running out of fuel
is reported as the distinguished error `Err.fuelOut`; all theorems about
complete runs either hold for every outcome or are conditioned on the
run finishing.

Python exceptions leave the mutated object mutated, so the result type
`Res` carries the document state also in the error case.
-/

namespace PDFMaker

/-- A table cell as handed to the drawing surface: either the raw value
(string form) or a `Paragraph` flowable built from it; the flag records
whether the header sub-style or the body sub-style was used. -/
inductive Cell where
  | raw (s : String)
  | par (s : String) (headerStyle : Bool)
deriving DecidableEq, Repr

/-- String content of a cell (used by the heap model when re-reading
source rows). -/
def cellStr : Cell → String
  | .raw s => s
  | .par s _ => s

/-- One recorded drawing-surface call. Every event carries the index of
the page it is drawn on (number of pages committed before it). -/
inductive Event where
  | textDrawn (page : ℕ) (text : String) (x y : ℤ)
  | imageDrawn (page : ℕ) (file : String) (x y w h : ℤ)
  | tableDrawn (page : ℕ) (rows : List (List Cell)) (x y : ℤ)
  | pageNumberDrawn (page : ℕ) (number : ℤ) (x y : ℤ)
  | pageCommitted (page : ℕ)
deriving DecidableEq, Repr

/-- The page index an event was recorded on. -/
def Event.page : Event → ℕ
  | .textDrawn p _ _ _ => p
  | .imageDrawn p _ _ _ _ _ => p
  | .tableDrawn p _ _ _ => p
  | .pageNumberDrawn p _ _ _ => p
  | .pageCommitted p => p

/-- True for the events that draw flow content (text or table slices). -/
def Event.isContent : Event → Bool
  | .textDrawn _ _ _ _ => true
  | .tableDrawn _ _ _ _ => true
  | _ => false

/-- An RGB colour triple, as stored in the table style dictionaries. -/
def Color := ℚ × ℚ × ℚ
deriving instance DecidableEq, Repr for Color

/-- One entry of `self.table_style_list` (see `_initialize_table_styles`
and `table_style` in the source). -/
structure TableStyleRec where
  header : Bool
  fontName : String
  fontSize : ℚ
  textColor : Color
  backgroundColor : Color
  gridColor : Color
  gridSize : ℚ
  headerColor : Color
  headerTextColor : Color
deriving DecidableEq, Repr

/-- One entry of `self.template_images` (see `add_template_image`). -/
structure TemplateImg where
  file : String
  sizeProportions : ℤ
  width : ℤ
  height : ℤ
  posx : ℤ
  posy : ℤ
  axisx : String
  axisy : String
deriving DecidableEq, Repr

/-- The mutable state of a `Document` instance, plus the trace of
drawing-surface calls (`events`) and the count of committed pages
(`pages`), which instrument the canvas. -/
structure Doc where
  name : String
  width : ℤ
  height : ℤ
  marginTop : ℤ
  marginLeft : ℤ
  marginRight : ℤ
  marginBottom : ℤ
  currentHeight : ℤ
  pageCount : Bool
  pageNumber : ℤ
  styleList : List String
  tableStyleList : List (String × TableStyleRec)
  templateImages : List (String × TemplateImg)
  pages : ℕ
  events : List Event
deriving DecidableEq, Repr

/-- Append one drawing event to the trace. -/
def emit (d : Doc) (e : Event) : Doc := { d with events := d.events ++ [e] }

/-- Errors raised by the engine. `valueError` and `keyError` mirror the
Python exceptions, `fileNotFound` the failed image open; `fuelOut` is
the instrumentation marker for an unfinished run. -/
inductive Err where
  | valueError (msg : String)
  | keyError (k : String)
  | fileNotFound (f : String)
  | fuelOut
deriving DecidableEq, Repr

/-- Outcome of an operation. Errors keep the document state reached at
the moment of raising, as a Python exception would. -/
inductive Res where
  | ok (d : Doc)
  | err (e : Err) (d : Doc)
deriving DecidableEq, Repr

/-- The document state carried by a result, error or not. -/
def Res.doc : Res → Doc
  | .ok d => d
  | .err _ d => d

/-- Whether the operation finished without an error. -/
def Res.isOk : Res → Bool
  | .ok _ => true
  | .err _ _ => false

/-- Measurement collaborators: paragraph wrap height and width (by style
name and text), image pixel dimensions (`none` models an unreadable
file), and table wrap height and width (by cell rows and column-width
argument). -/
structure Env where
  wrapH : String → String → ℤ
  wrapW : String → String → ℤ
  imgSize : String → Option (ℤ × ℤ)
  tableH : List (List Cell) → Option ℤ → ℤ
  tableW : List (List Cell) → Option ℤ → ℤ

/-- The `col_widths` argument of `add_table`: absent, the literal
sentinel `uniform`, or an explicit width. -/
inductive ColW where
  | noneArg
  | uniform
  | fixed (w : ℤ)
deriving DecidableEq, Repr

/-- The resolved column-width value handed to the drawing surface. -/
def ColW.resolved : ColW → Option ℤ
  | .noneArg => none
  | .uniform => none
  | .fixed w => some w

/-- Association-list lookup, modelling Python dict indexing. -/
def assoc {α : Type} : List (String × α) → String → Option α
  | [], _ => none
  | (k, v) :: rest, s => if k = s then some v else assoc rest s

/-- Dict insertion preserving insertion order: an existing key keeps its
position and gets the new value, a new key is appended. -/
def dictInsert {α : Type} (l : List (String × α)) (k : String) (v : α) :
    List (String × α) :=
  if (l.map Prod.fst).contains k then
    l.map (fun p => if p.1 = k then (k, v) else p)
  else l ++ [(k, v)]

/-- Helper for `splitSpace`: walk the characters, cutting at every
single space and keeping empty pieces, like Python `str.split(" ")`. -/
def splitSpaceAux : List Char → List Char → List String
  | [], acc => [String.mk acc.reverse]
  | c :: rest, acc =>
      if c = ' ' then String.mk acc.reverse :: splitSpaceAux rest []
      else splitSpaceAux rest (c :: acc)

/-- Python `text.split(" ")`: split at every single space character,
keeping empty pieces; the empty string splits to one empty piece. -/
def splitSpace (s : String) : List String := splitSpaceAux s.data []

/-- Python `" ".join(pieces)`. -/
def joinSpace : List String → String
  | [] => ""
  | [s] => s
  | s :: rest => s ++ " " ++ joinSpace rest

/-- `_set_absolute_positions`: left and bottom margins for an absolutely
positioned image, from the anchors and offsets. -/
def setAbsolutePositions (d : Doc) (axisx axisy : String)
    (imgWidth imgHeight posx posy : ℤ) : ℤ × ℤ :=
  let lm :=
    if axisx = "right" then d.width - imgWidth - posx
    else if axisx = "center" then (d.width - imgWidth) / 2 + posx
    else posx
  let bm :=
    if axisy = "bottom" then posy
    else if axisy = "center" then (d.height - imgHeight) / 2 - posy
    else d.height - imgHeight - posy
  (lm, bm)

/-- `_add_page_number`: draw the page number centered above the bottom
margin when numbering is enabled. -/
def addPageNumber (env : Env) (d : Doc) : Doc :=
  if d.pageCount then
    let t := toString d.pageNumber
    let wT := env.wrapW "page_number" t
    emit d (.pageNumberDrawn d.pages d.pageNumber ((d.width - wT) / 2)
      (d.marginBottom / 2))
  else d

/-- The drawing position of an image, by placement mode: the if-chain of
`add_image` over `center`, `absolute` and the default mode. -/
def imgPos (d : Doc) (position axisx axisy : String)
    (imgW imgH posx posy : ℤ) : ℤ × ℤ :=
  if position = "center" then
    (d.width / 2 - imgW / 2, d.height - d.marginTop - d.currentHeight - imgH)
  else if position = "absolute" then
    setAbsolutePositions d axisx axisy imgW imgH posx posy
  else
    (d.marginLeft, d.height - d.marginTop - d.currentHeight - imgH)

/-- The cell built for row `i` by the wrap step of `add_table`: header
sub-style for row 0 of a header style, body sub-style otherwise. -/
def wrapCell (tsd : TableStyleRec) (i : ℕ) (c : String) : Cell :=
  if i = 0 ∧ tsd.header then .par c true else .par c false

/-- The nested for-loop of the wrap step, with the running row index. -/
def wrapRows (tsd : TableStyleRec) : ℕ → List (List String) → List (List Cell)
  | _, [] => []
  | i, row :: rest => row.map (wrapCell tsd i) :: wrapRows tsd (i + 1) rest

/-- `data_send` as built by `add_table`: wrapped paragraphs when `wrap`
is set, otherwise the deep-copied raw values. -/
def wrapCells (tsd : TableStyleRec) (wrap : Bool) (data : List (List String)) :
    List (List Cell) :=
  if wrap then wrapRows tsd 0 data
  else data.map (fun row => row.map Cell.raw)

/-- Resolution of the `uniform` column-width sentinel: total content
width divided by the number of columns of the first row. -/
def resolveColW (d : Doc) (data : List (List String)) : ColW → ColW
  | .uniform =>
      .fixed ((d.width - d.marginLeft - d.marginRight) /
        ((data.headD []).length : ℤ))
  | c => c

/-- The operations interpreted by the fueled step function: the public
entry points and the internal loops they compile to. -/
inductive Cmd where
  | newPage
  | verifyPageBreak
  | templateLoop (imgs : List (String × TemplateImg))
  | addImage (file : String) (sizeProportions w h : ℤ) (position : String)
      (posx posy : ℤ) (axisx axisy : String)
  | addSection (text style : String)
  | sectionLoop (style text : String) (pointer : ℕ) (hasSplit : Bool)
  | addTable (data : List (List String)) (cw : ColW) (style position : String)
      (wrap : Bool)
  | tableLoop (data : List (List String)) (dataSend : List (List Cell))
      (cw : ColW) (tsd : TableStyleRec) (style position : String) (wrap : Bool)
      (pointer : ℕ)
  | tableCont (data : List (List String)) (cw : ColW) (tsd : TableStyleRec)
      (style position : String) (wrap : Bool) (pointer sendLen : ℕ)

/-- One step of the interpreter: a line-by-line translation of
`new_page`, `verify_page_break`, `add_section`, `add_image` and
`add_table` with their internal while loops and recursive
continuations. `go` is the recursive callback (one fuel unit lower). -/
def execStep (env : Env) (go : Cmd → Doc → Res) : Cmd → Doc → Res
  | .newPage, d =>
      let d1 := addPageNumber env d
      match go (.templateLoop d1.templateImages) d1 with
      | .err e d2 => .err e d2
      | .ok d2 =>
          let d3 := emit d2 (.pageCommitted d2.pages)
          let pn := if d3.pageCount then d3.pageNumber + 1 else d3.pageNumber
          .ok { d3 with currentHeight := 0, pages := d3.pages + 1,
                        pageNumber := pn }
  | .verifyPageBreak, d =>
      if d.currentHeight + d.marginTop + d.marginBottom > d.height then
        go .newPage d
      else .ok d
  | .templateLoop [], d => .ok d
  | .templateLoop ((_, t) :: rest), d =>
      match go (.addImage t.file t.sizeProportions t.width t.height
          "absolute" t.posx t.posy t.axisx t.axisy) d with
      | .err e d1 => .err e d1
      | .ok d1 => go (.templateLoop rest) d1
  | .addImage file sp w h position posx posy axisx axisy, d =>
      match go .verifyPageBreak d with
      | .err e d1 => .err e d1
      | .ok d1 =>
        if sp ≤ 0 ∨ w ≤ 0 ∨ h ≤ 0 then
          .err (.valueError
            "Size proportions, width, and height must be positive values.") d1
        else if ¬ (position = "center" ∨ position = "absolute" ∨
            position = "default") then
          .err (.valueError
            "Position must be one of center, absolute, default.") d1
        else
          match env.imgSize file with
          | none => .err (.fileNotFound file) d1
          | some (iw, ih) =>
            let imgW := iw * (sp * w)
            let imgH := ih * (sp * h)
            let lb := imgPos d1 position axisx axisy imgW imgH posx posy
            let d2 := emit d1 (.imageDrawn d1.pages file lb.1 lb.2 imgW imgH)
            .ok { d2 with currentHeight := d2.currentHeight + imgH }
  | .addSection text style, d =>
      if ¬ d.styleList.contains style then
        .err (.valueError ("Style " ++ style ++ " is not defined in style_list."))
          d
      else
        match go .verifyPageBreak d with
        | .err e d1 => .err e d1
        | .ok d1 =>
            go (.sectionLoop style text ((splitSpace text).length - 1) false) d1
  | .sectionLoop style text pointer hasSplit, d =>
      let hT := env.wrapH style text
      if ¬ (d.currentHeight + d.marginTop + d.marginBottom + hT > d.height) then
        let d1 := emit d (.textDrawn d.pages text d.marginLeft
          (d.height - d.marginTop - d.currentHeight - hT))
        let d2 := { d1 with currentHeight := d1.currentHeight + hT }
        if hasSplit then
          let newText :=
            joinSpace ((splitSpace text).drop (pointer + 1))
          match go .newPage d2 with
          | .err e d3 => .err e d3
          | .ok d3 => go (.addSection newText style) d3
        else .ok d2
      else
        if 0 < pointer then
          go (.sectionLoop style
              (joinSpace ((splitSpace text).take pointer))
              (pointer - 1) true) d
        else
          match go .newPage d with
          | .err e d3 => .err e d3
          | .ok d3 =>
              go (.sectionLoop style text ((splitSpace text).length - 1) false)
                d3
  | .addTable data cw style position wrap, d =>
      match go .verifyPageBreak d with
      | .err e d1 => .err e d1
      | .ok d1 =>
        match assoc d1.tableStyleList style with
        | none => .err (.keyError style) d1
        | some tsd =>
            let dataSend := wrapCells tsd wrap data
            let cw2 := resolveColW d1 data cw
            go (.tableLoop data dataSend cw2 tsd style position wrap data.length)
              d1
  | .tableLoop data dataSend cw tsd style position wrap pointer, d =>
      let slice := dataSend.take pointer
      let hT := env.tableH slice cw.resolved
      let wT := env.tableW slice cw.resolved
      if d.marginTop + d.currentHeight + hT > d.height - d.marginBottom then
        if 1 < pointer then
          go (.tableLoop data dataSend cw tsd style position wrap (pointer - 1))
            d
        else
          match go .newPage d with
          | .err e d1 => .err e d1
          | .ok d1 =>
              go (.tableLoop data dataSend cw tsd style position wrap
                  dataSend.length) d1
      else
        let lm := if position = "default" then d.marginLeft
                  else (d.width - wT) / 2
        if pointer = 1 ∧ 1 < data.length ∧ tsd.header then
          match go .newPage d with
          | .err e d1 => .err e d1
          | .ok d1 =>
              go (.tableCont data cw tsd style position wrap pointer
                  dataSend.length) d1
        else
          let d1 := emit d (.tableDrawn d.pages slice lm
            (d.height - d.marginTop - d.currentHeight - hT))
          let d2 := { d1 with currentHeight := d1.currentHeight + hT }
          go (.tableCont data cw tsd style position wrap pointer dataSend.length)
            d2
  | .tableCont data cw tsd style position wrap pointer sendLen, d =>
      if pointer ≠ sendLen then
        if tsd.header then
          go (.addTable (data.take 1 ++ data.drop pointer) cw style position
              wrap) d
        else
          go (.addTable (data.drop pointer) cw style position wrap) d
      else .ok d

/-- Fueled interpreter: run one `execStep`, with the recursive calls one
fuel unit lower; fuel zero reports `Err.fuelOut`. -/
def exec (env : Env) : ℕ → Cmd → Doc → Res
  | 0, _, d => .err .fuelOut d
  | fuel + 1, cmd, d => execStep env (exec env fuel) cmd d

/-- `new_page` entry point. -/
def newPage (fuel : ℕ) (env : Env) (d : Doc) : Res := exec env fuel .newPage d

/-- `verify_page_break` entry point. -/
def verifyPageBreak (fuel : ℕ) (env : Env) (d : Doc) : Res :=
  exec env fuel .verifyPageBreak d

/-- `add_section` entry point. -/
def addSection (fuel : ℕ) (env : Env) (d : Doc) (text style : String) : Res :=
  exec env fuel (.addSection text style) d

/-- `add_image` entry point. -/
def addImage (fuel : ℕ) (env : Env) (d : Doc) (file : String)
    (sizeProportions w h : ℤ) (position : String) (posx posy : ℤ)
    (axisx axisy : String) : Res :=
  exec env fuel
    (.addImage file sizeProportions w h position posx posy axisx axisy) d

/-- `add_table` entry point. -/
def addTable (fuel : ℕ) (env : Env) (d : Doc) (data : List (List String))
    (cw : ColW) (style position : String) (wrap : Bool) : Res :=
  exec env fuel (.addTable data cw style position wrap) d

/-- `add_space`: unconditionally adds the argument to the cursor. -/
def addSpace (d : Doc) (height : ℤ) : Doc :=
  { d with currentHeight := d.currentHeight + height }

/-- `toggle_page_count`. -/
def togglePageCount (d : Doc) (pageNumber : Option ℤ) (set : Option Bool) :
    Doc :=
  { d with
    pageCount := match set with | Option.none => !d.pageCount | some b => b,
    pageNumber := match pageNumber with
      | some p => p
      | Option.none => d.pageNumber }

/-- `add_template_image`: register (or overwrite) a template image. -/
def addTemplateImage (d : Doc) (name : String) (t : TemplateImg) : Doc :=
  { d with templateImages := dictInsert d.templateImages name t }

/-- `style_config`: register a paragraph style name (its attributes live
in the measurement environment). -/
def styleConfig (d : Doc) (name : String) : Doc :=
  { d with styleList :=
      if d.styleList.contains name then d.styleList
      else d.styleList ++ [name] }

/-- `save`: finalize the last page and flush the file. -/
def save (fuel : ℕ) (env : Env) (d : Doc) : Res := newPage fuel env d

/-- The rational one half, written as an explicit `Rat` structure so
that stored colour values compare by kernel reduction. -/
def oneHalf : ℚ := ⟨1, 2, by decide, by decide⟩

/-- Default table style `table` from `_initialize_table_styles`. -/
def defaultTableStyle : TableStyleRec :=
  { header := true, fontName := "Helvetica-Bold", fontSize := 8,
    textColor := (0, 0, 0), backgroundColor := (1, 1, 1),
    gridColor := (0, 0, 0), gridSize := 1,
    headerColor := (oneHalf, oneHalf, oneHalf),
    headerTextColor := (1, 1, 1) }

/-- Default table style `no_header` from `_initialize_table_styles`. -/
def noHeaderTableStyle : TableStyleRec :=
  { header := false, fontName := "Helvetica-Bold", fontSize := 8,
    textColor := (0, 0, 0), backgroundColor := (1, 1, 1),
    gridColor := (0, 0, 0), gridSize := 1,
    headerColor := (1, 1, 1), headerTextColor := (0, 0, 0) }

/-- `Document.__init__` with explicit geometry; styles and registries as
initialized by `_initialize_styles` and `_initialize_table_styles`. -/
def mkDocument (name : String)
    (width height marginTop marginLeft marginRight marginBottom : ℤ) : Doc :=
  { name := name, width := width, height := height,
    marginTop := marginTop, marginLeft := marginLeft,
    marginRight := marginRight, marginBottom := marginBottom,
    currentHeight := 0, pageCount := false, pageNumber := 1,
    styleList := ["title", "paragraph", "page_number"],
    tableStyleList := [("table", defaultTableStyle),
                       ("no_header", noHeaderTableStyle)],
    templateImages := [], pages := 0, events := [] }

/-! ### Derived observations on traces -/

/-- The text arguments of all `draw_text` calls, in drawing order. -/
def drawnTexts (d : Doc) : List String :=
  d.events.filterMap fun e =>
    match e with
    | .textDrawn _ t _ _ => some t
    | _ => none

/-- The expected first row of every drawn slice of a table whose raw
header row is `hrow`: wrapped with the header sub-style when `wrap` and
the style has a header, raw otherwise. -/
def hdrRow (tsd : TableStyleRec) (wrap : Bool) (hrow : List String) :
    List Cell :=
  if wrap then hrow.map (fun c => Cell.par c tsd.header)
  else hrow.map Cell.raw

/-- Checks one event for claim C2: every drawn table slice has at least
two rows and starts with the header row content. Non-table events pass. -/
def c2ok (tsd : TableStyleRec) (wrap : Bool) (hrow : List String)
    (ev : Event) : Bool :=
  match ev with
  | .tableDrawn _ rows _ _ =>
      decide (2 ≤ rows.length) && decide (rows.head? = some (hdrRow tsd wrap hrow))
  | _ => true

/-- Checks that a text-draw event lies on a page strictly after page
`p`; all other events pass. -/
def textFresh (p : ℕ) (ev : Event) : Bool :=
  match ev with
  | .textDrawn pg _ _ _ => decide (p < pg)
  | _ => true

/-- Checks that a table-draw event lies on a page strictly after page
`p`; all other events pass. -/
def tableFresh (p : ℕ) (ev : Event) : Bool :=
  match ev with
  | .tableDrawn pg _ _ _ => decide (p < pg)
  | _ => true

/-! ### Template replay descriptors (used to state claim C4) -/

/-- The drawn height of one template image under the decoder. -/
def tmplHeight (env : Env) (t : TemplateImg) : ℤ :=
  match env.imgSize t.file with
  | some (_, ih) => ih * (t.sizeProportions * t.height)
  | none => 0

/-- The image-draw event produced for one template image replayed on the
current page of `d` (absolute positioning reads only the page geometry). -/
def tmplEvent (env : Env) (d : Doc) (t : TemplateImg) : Event :=
  match env.imgSize t.file with
  | some (iw, ih) =>
      let w := iw * (t.sizeProportions * t.width)
      let h := ih * (t.sizeProportions * t.height)
      let lb := setAbsolutePositions d t.axisx t.axisy w h t.posx t.posy
      .imageDrawn d.pages t.file lb.1 lb.2 w h
  | none => .imageDrawn d.pages t.file 0 0 0 0

/-- The image-draw events of a whole template replay, in registration
order. -/
def tmplEvents (env : Env) (d : Doc) : List (String × TemplateImg) → List Event
  | [] => []
  | (_, t) :: rest => tmplEvent env d t :: tmplEvents env d rest

/-- Total cursor height consumed by a template replay (`add_image` adds
the drawn height in every mode, absolute included). -/
def tmplHeights (env : Env) : List (String × TemplateImg) → ℤ
  | [] => 0
  | (_, t) :: rest => tmplHeight env t + tmplHeights env rest

/-- Side condition for a clean template replay starting at cursor `c`:
each image decodes, has positive scale factors, and the growing cursor
never triggers the pre-check page break during the replay. -/
def replayOK (env : Env) (hgt mt mb : ℤ) : ℤ → List (String × TemplateImg) → Bool
  | _, [] => true
  | c, (_, t) :: rest =>
      match env.imgSize t.file with
      | none => false
      | some _ =>
          decide (¬ (c + mt + mb > hgt)) && decide (0 < t.sizeProportions) &&
          decide (0 < t.width) && decide (0 < t.height) &&
          replayOK env hgt mt mb (c + tmplHeight env t) rest

/-- The page-number events drawn by `_add_page_number`. -/
def pageNumEvents (env : Env) (d : Doc) : List Event :=
  if d.pageCount then
    [.pageNumberDrawn d.pages d.pageNumber
      ((d.width - env.wrapW "page_number" (toString d.pageNumber)) / 2)
      (d.marginBottom / 2)]
  else []

/-! ### Heap model of `add_table` (used for claim C10)

Python rows are mutable list objects passed by reference, so the
no-mutation claim C10 is stated over an explicit row heap: the `Store`
holds every row object, a table argument is a list of row addresses,
`row[:]` and `deepcopy` allocate fresh addresses, and the wrap step
writes only to the freshly allocated `data_send` rows. -/

/-- The heap of row objects; a row address is an index into `rows`. -/
structure Store where
  rows : List (List Cell)
deriving DecidableEq, Repr

/-- Read the row object at an address (dangling addresses read as empty,
they do not occur in real runs). -/
def getRow (st : Store) (i : ℕ) : List Cell := (st.rows.get? i).getD []

/-- Allocate a fresh row object, returning its address. -/
def allocRow (st : Store) (r : List Cell) : Store × ℕ :=
  ({ rows := st.rows ++ [r] }, st.rows.length)

/-- `[row[:] for row in data]` and likewise `deepcopy(data)`: allocate a
fresh copy of every addressed row, in order. -/
def copyRows (st : Store) : List ℕ → Store × List ℕ
  | [] => (st, [])
  | i :: rest =>
      let p := allocRow st (getRow st i)
      let q := copyRows p.1 rest
      (q.1, p.2 :: q.2)

/-- Overwrite the row object at an address. -/
def setRow (st : Store) (i : ℕ) (r : List Cell) : Store :=
  { rows := st.rows.set i r }

/-- The wrap step of `add_table` on the heap: for each row index `i`,
read `data[i]` and overwrite `data_send[i]` with the paragraph cells. -/
def wrapRowsH (tsd : TableStyleRec) : ℕ → Store → List ℕ → List ℕ → Store
  | _, st, [], _ => st
  | _, st, _, [] => st
  | i, st, di :: dr, si :: sr =>
      wrapRowsH tsd (i + 1)
        (setRow st si ((getRow st di).map (fun c => wrapCell tsd i (cellStr c))))
        dr sr

/-- Heap extension: the final heap is at least as long as the initial
one and agrees with it on every initial address (so no initially present
row object was mutated). -/
def storeExt (a b : Store) : Prop :=
  a.rows.length ≤ b.rows.length ∧ b.rows.take a.rows.length = a.rows

/-- Read the row objects for a list of addresses. -/
def readRows (st : Store) (ids : List ℕ) : List (List Cell) :=
  ids.map (getRow st)

/-- Outcome of a heap-model operation: document state plus the row heap,
also kept on error. -/
inductive ResH where
  | ok (d : Doc) (st : Store)
  | err (e : Err) (d : Doc) (st : Store)
deriving Repr

/-- The heap carried by a heap-model result. -/
def ResH.store : ResH → Store
  | .ok _ st => st
  | .err _ _ st => st

/-- The document state carried by a heap-model result. -/
def ResH.doc : ResH → Doc
  | .ok d _ => d
  | .err _ d _ => d

/-- The operations of the heap model of `add_table`. -/
inductive CmdH where
  | addTable (ids : List ℕ) (cw : ColW) (style position : String) (wrap : Bool)
  | tableLoop (dataIds sendIds : List ℕ) (cw : ColW) (tsd : TableStyleRec)
      (style position : String) (wrap : Bool) (pointer : ℕ)
  | tableCont (dataIds : List ℕ) (cw : ColW) (tsd : TableStyleRec)
      (style position : String) (wrap : Bool) (pointer sendLen : ℕ)

/-- One step of the heap model of `add_table`, mirroring the source with
rows as heap addresses: the argument rows are shallow-copied
(`data = [row[:] for row in data]`), deep-copied into `data_send`, the
wrap step mutates only the `data_send` copies, and the recursive
continuation passes addresses of the already copied `data` rows. Page
bookkeeping reuses the pure interpreter (`exec`), which never touches
rows. -/
def execStepH (env : Env) (goP : Cmd → Doc → Res) (go : CmdH → Doc → Store → ResH) :
    CmdH → Doc → Store → ResH
  | .addTable ids cw style position wrap, d, st =>
      match goP .verifyPageBreak d with
      | .err e d1 => .err e d1 st
      | .ok d1 =>
        match assoc d1.tableStyleList style with
        | none => .err (.keyError style) d1 st
        | some tsd =>
            let p := copyRows st ids
            let q := copyRows p.1 p.2
            let st2 := if wrap then wrapRowsH tsd 0 q.1 p.2 q.2 else q.1
            let cw2 :=
              match cw with
              | .uniform =>
                  ColW.fixed ((d1.width - d1.marginLeft - d1.marginRight) /
                    ((getRow st2 (p.2.headD 0)).length : ℤ))
              | c => c
            go (.tableLoop p.2 q.2 cw2 tsd style position wrap p.2.length) d1 st2
  | .tableLoop dataIds sendIds cw tsd style position wrap pointer, d, st =>
      let slice := readRows st (sendIds.take pointer)
      let hT := env.tableH slice cw.resolved
      let wT := env.tableW slice cw.resolved
      if d.marginTop + d.currentHeight + hT > d.height - d.marginBottom then
        if 1 < pointer then
          go (.tableLoop dataIds sendIds cw tsd style position wrap (pointer - 1))
            d st
        else
          match goP .newPage d with
          | .err e d1 => .err e d1 st
          | .ok d1 =>
              go (.tableLoop dataIds sendIds cw tsd style position wrap
                  sendIds.length) d1 st
      else
        let lm := if position = "default" then d.marginLeft
                  else (d.width - wT) / 2
        if pointer = 1 ∧ 1 < dataIds.length ∧ tsd.header then
          match goP .newPage d with
          | .err e d1 => .err e d1 st
          | .ok d1 =>
              go (.tableCont dataIds cw tsd style position wrap pointer
                  sendIds.length) d1 st
        else
          let d1 := emit d (.tableDrawn d.pages slice lm
            (d.height - d.marginTop - d.currentHeight - hT))
          let d2 := { d1 with currentHeight := d1.currentHeight + hT }
          go (.tableCont dataIds cw tsd style position wrap pointer
              sendIds.length) d2 st
  | .tableCont dataIds cw tsd style position wrap pointer sendLen, d, st =>
      if pointer ≠ sendLen then
        if tsd.header then
          go (.addTable (dataIds.take 1 ++ dataIds.drop pointer) cw style
              position wrap) d st
        else
          go (.addTable (dataIds.drop pointer) cw style position wrap) d st
      else .ok d st

/-- Fueled interpreter of the heap model. -/
def execH (env : Env) : ℕ → CmdH → Doc → Store → ResH
  | 0, _, d, st => .err .fuelOut d st
  | fuel + 1, cmd, d, st =>
      execStepH env (exec env fuel) (execH env fuel) cmd d st

/-- `add_table` entry point of the heap model. -/
def addTableH (fuel : ℕ) (env : Env) (d : Doc) (st : Store) (ids : List ℕ)
    (cw : ColW) (style position : String) (wrap : Bool) : ResH :=
  execH env fuel (.addTable ids cw style position wrap) d st

/-! ### Concrete inputs used by witnesses and counterexamples -/

/-- Environment for the C1 and C5 runs: the full text is 120 high, the
two word prefix 50, the one word prefix 30, anything else one line of
height 0 is never needed, so every other text measures 0. -/
def env1 : Env :=
  { wrapH := fun _ t =>
      if t = "A B C" then 120 else if t = "A B" then 50
      else if t = "A" then 30 else 0,
    wrapW := fun _ _ => 10,
    imgSize := fun _ => some (10, 10),
    tableH := fun rows _ => 20 * rows.length,
    tableW := fun _ _ => 50 }

/-- A 100 x 100 page with zero margins and nothing placed yet. -/
def doc1 : Doc := mkDocument "document.pdf" 100 100 0 0 0 0

/-- The C5 run starts with 80 units already consumed on the page. -/
def doc5 : Doc := addSpace doc1 80

/-- Environment with a fixed 10 x 10 decoded image and constant positive
measurements. -/
def env3 : Env :=
  { wrapH := fun _ _ => 10, wrapW := fun _ _ => 10,
    imgSize := fun _ => some (10, 10),
    tableH := fun rows _ => 20 * rows.length,
    tableW := fun _ _ => 50 }

/-- Document with one registered template image and numbering enabled,
for the C4 run. -/
def doc4 : Doc :=
  togglePageCount
    (addTemplateImage doc1 "logo"
      { file := "logo.png", sizeProportions := 1, width := 1, height := 1,
        posx := 5, posy := 5, axisx := "left", axisy := "top" })
    (some 1) (some true)

/-- Environment for the C6 image run: the decoded image is 20 x 20. -/
def env6 : Env :=
  { wrapH := fun _ _ => 10, wrapW := fun _ _ => 10,
    imgSize := fun _ => some (20, 20),
    tableH := fun rows _ => 20 * rows.length,
    tableW := fun _ _ => 50 }

/-- An exactly full page for C6: height 100, margins 10 and 10, cursor
at 80 = height minus vertical margins. -/
def doc6 : Doc := addSpace (mkDocument "d.pdf" 100 100 10 0 0 10) 80

/-- A document whose cursor exceeds the page (via `add_space`), with
numbering on, for the C7 run: the pre-check of a subsequent operation
finalizes a page before validation. -/
def doc7 : Doc :=
  togglePageCount (addSpace (mkDocument "d.pdf" 100 100 10 0 0 10) 200)
    (some 1) (some true)

/-- A document with 10 units consumed, for the C8 counterexample. -/
def doc8 : Doc := addSpace doc1 10

/-- Four single-cell rows with a header row, for the C2 witness. -/
def rows4 : List (List String) := [["h"], ["a"], ["b"], ["c"]]

/-- Page for the C2 witness: 50 units of content space fit two rows of
height 20, so the table spans three pages. -/
def doc2w : Doc := mkDocument "d.pdf" 100 100 20 0 0 30

/-- The operations invoked internally by page finalization: these never
draw flow content (text or table slices). -/
def Cmd.isInternal : Cmd → Bool
  | .newPage => true
  | .verifyPageBreak => true
  | .templateLoop _ => true
  | .addImage _ _ _ _ _ _ _ _ _ => true
  | _ => false

/-- Conclusion of claim C6 at an exactly full page: text and table
content is only ever drawn on later pages, while an image (valid
arguments, any placement mode) is drawn on the current page with no page
committed by the call. -/
def C6Concl (env : Env) (fuel : ℕ) (d : Doc) : Prop :=
  ((∀ s t, 0 < env.wrapH s t) → ∀ text style,
      ∀ ev ∈ (addSection fuel env d text style).doc.events,
        ev ∈ d.events ∨ textFresh d.pages ev = true) ∧
  ((∀ rows cwr, 0 < env.tableH rows cwr) →
      ∀ data cw style position wrap,
      ∀ ev ∈ (addTable fuel env d data cw style position wrap).doc.events,
        ev ∈ d.events ∨ tableFresh d.pages ev = true) ∧
  (∀ file sp w h position posx posy axisx axisy iw ihh, 2 ≤ fuel →
      0 < sp → 0 < w → 0 < h →
      (position = "center" ∨ position = "absolute" ∨ position = "default") →
      env.imgSize file = some (iw, ihh) →
      addImage fuel env d file sp w h position posx posy axisx axisy =
        .ok { emit d (.imageDrawn d.pages file
                (imgPos d position axisx axisy (iw * (sp * w))
                  (ihh * (sp * h)) posx posy).1
                (imgPos d position axisx axisy (iw * (sp * w))
                  (ihh * (sp * h)) posx posy).2
                (iw * (sp * w)) (ihh * (sp * h))) with
              currentHeight := d.currentHeight + ihh * (sp * h) })

/-- State components preserved or monotone across every interpreted
operation, and the page-tagging of newly emitted trace events: every
event of the final trace is either an old event or was drawn on a page
at or after the starting page. -/
structure Pres (d d' : Doc) : Prop where
  name_eq : d'.name = d.name
  width_eq : d'.width = d.width
  height_eq : d'.height = d.height
  marginTop_eq : d'.marginTop = d.marginTop
  marginLeft_eq : d'.marginLeft = d.marginLeft
  marginRight_eq : d'.marginRight = d.marginRight
  marginBottom_eq : d'.marginBottom = d.marginBottom
  styleList_eq : d'.styleList = d.styleList
  tableStyleList_eq : d'.tableStyleList = d.tableStyleList
  templateImages_eq : d'.templateImages = d.templateImages
  pageCount_eq : d'.pageCount = d.pageCount
  pages_le : d.pages ≤ d'.pages
  pageNumber_le : d.pageNumber ≤ d'.pageNumber
  pageNumber_frozen : d.pageCount = false → d'.pageNumber = d.pageNumber
  events_ext : ∀ ev ∈ d'.events, ev ∈ d.events ∨ d.pages ≤ ev.page

theorem pres_refl (d : Doc) : Pres d d :=
  ⟨rfl, rfl, rfl, rfl, rfl, rfl, rfl, rfl, rfl, rfl, rfl, le_refl _, le_refl _,
   fun _ => rfl, fun _ev hev => Or.inl hev⟩

theorem pres_trans {a b c : Doc} (h1 : Pres a b) (h2 : Pres b c) : Pres a c := by
  refine ⟨?_, ?_, ?_, ?_, ?_, ?_, ?_, ?_, ?_, ?_, ?_, ?_, ?_, ?_, ?_⟩
  · exact h2.name_eq.trans h1.name_eq
  · exact h2.width_eq.trans h1.width_eq
  · exact h2.height_eq.trans h1.height_eq
  · exact h2.marginTop_eq.trans h1.marginTop_eq
  · exact h2.marginLeft_eq.trans h1.marginLeft_eq
  · exact h2.marginRight_eq.trans h1.marginRight_eq
  · exact h2.marginBottom_eq.trans h1.marginBottom_eq
  · exact h2.styleList_eq.trans h1.styleList_eq
  · exact h2.tableStyleList_eq.trans h1.tableStyleList_eq
  · exact h2.templateImages_eq.trans h1.templateImages_eq
  · exact h2.pageCount_eq.trans h1.pageCount_eq
  · exact h1.pages_le.trans h2.pages_le
  · exact h1.pageNumber_le.trans h2.pageNumber_le
  · intro hfalse
    exact (h2.pageNumber_frozen (h1.pageCount_eq.trans hfalse)).trans
      (h1.pageNumber_frozen hfalse)
  · intro ev hev
    rcases h2.events_ext ev hev with hb | hp
    · rcases h1.events_ext ev hb with ha | hp'
      · exact Or.inl ha
      · exact Or.inr hp'
    · exact Or.inr (le_trans h1.pages_le hp)

theorem pres_emit (d : Doc) (ev : Event) (h : d.pages ≤ ev.page) :
    Pres d (emit d ev) := by
  refine ⟨rfl, rfl, rfl, rfl, rfl, rfl, rfl, rfl, rfl, rfl, rfl, le_refl _,
    le_refl _, fun _ => rfl, ?_⟩
  intro e he
  simp only [emit, List.mem_append, List.mem_singleton] at he
  rcases he with he | rfl
  · exact Or.inl he
  · exact Or.inr h

theorem pres_setCur (d : Doc) (x : ℤ) :
    Pres d { d with currentHeight := x } :=
  ⟨rfl, rfl, rfl, rfl, rfl, rfl, rfl, rfl, rfl, rfl, rfl, le_refl _, le_refl _,
   fun _ => rfl, fun _ev hev => Or.inl hev⟩

theorem pres_addPageNumber (env : Env) (d : Doc) :
    Pres d (addPageNumber env d) := by
  unfold addPageNumber
  split
  · exact pres_emit d _ (le_refl _)
  · exact pres_refl d

theorem pres_finalize (d2 : Doc) :
    Pres d2
      { emit d2 (.pageCommitted d2.pages) with
        currentHeight := 0,
        pages := (emit d2 (.pageCommitted d2.pages)).pages + 1,
        pageNumber :=
          if (emit d2 (.pageCommitted d2.pages)).pageCount then
            (emit d2 (.pageCommitted d2.pages)).pageNumber + 1
          else (emit d2 (.pageCommitted d2.pages)).pageNumber } := by
  refine ⟨rfl, rfl, rfl, rfl, rfl, rfl, rfl, rfl, rfl, rfl, rfl, ?_, ?_, ?_, ?_⟩
  · exact Nat.le_succ _
  · simp only [emit]
    split <;> omega
  · intro hfalse
    simp only [emit] at *
    simp [hfalse]
  · intro ev hev
    simp only [emit, List.mem_append, List.mem_singleton] at hev
    rcases hev with he | rfl
    · exact Or.inl he
    · exact Or.inr (le_refl _)

theorem pres_seq (env : Env) (n : ℕ)
    (ihp : ∀ cmd d, Pres d (exec env n cmd d).doc) (c1 c2 : Cmd) (d : Doc) :
    Pres d ((match exec env n c1 d with
             | .err e d1 => Res.err e d1
             | .ok d1 => exec env n c2 d1).doc) := by
  cases h : exec env n c1 d with
  | err e d1 =>
      have h1 := ihp c1 d
      rw [h] at h1
      exact h1
  | ok d1 =>
      have h1 := ihp c1 d
      rw [h] at h1
      exact pres_trans h1 (ihp c2 d1)

/-- Every interpreted operation preserves the registry and geometry
fields, keeps the page count and page number monotone (the latter frozen
while numbering is off), and only appends events tagged with the current
or a later page. -/
theorem exec_pres (env : Env) :
    ∀ fuel cmd d, Pres d (exec env fuel cmd d).doc := by
  intro fuel
  induction fuel with
  | zero => intro cmd d; exact pres_refl d
  | succ n ih =>
    intro cmd d
    cases cmd with
    | newPage =>
        show Pres d ((execStep env (exec env n) .newPage d).doc)
        simp only [execStep]
        split
        next e d2 heq =>
          have h2 := ih (.templateLoop (addPageNumber env d).templateImages)
            (addPageNumber env d)
          rw [heq] at h2
          exact pres_trans (pres_addPageNumber env d) h2
        next d2 heq =>
          have h2 := ih (.templateLoop (addPageNumber env d).templateImages)
            (addPageNumber env d)
          rw [heq] at h2
          exact pres_trans (pres_addPageNumber env d)
            (pres_trans h2 (pres_finalize d2))
    | verifyPageBreak =>
        show Pres d ((execStep env (exec env n) .verifyPageBreak d).doc)
        simp only [execStep]
        split
        · exact ih .newPage d
        · exact pres_refl d
    | templateLoop imgs =>
        cases imgs with
        | nil => exact pres_refl d
        | cons p rest =>
            obtain ⟨nm, t⟩ := p
            show Pres d ((execStep env (exec env n)
              (.templateLoop ((nm, t) :: rest)) d).doc)
            simp only [execStep]
            split
            next e d1 heq =>
              have h1 := ih (.addImage t.file t.sizeProportions t.width
                t.height "absolute" t.posx t.posy t.axisx t.axisy) d
              rw [heq] at h1
              exact h1
            next d1 heq =>
              have h1 := ih (.addImage t.file t.sizeProportions t.width
                t.height "absolute" t.posx t.posy t.axisx t.axisy) d
              rw [heq] at h1
              exact pres_trans h1 (ih (.templateLoop rest) d1)
    | addImage file sp w h position posx posy axisx axisy =>
        show Pres d ((execStep env (exec env n)
          (.addImage file sp w h position posx posy axisx axisy) d).doc)
        simp only [execStep]
        split
        next e d1 heq =>
          have h1 := ih .verifyPageBreak d
          rw [heq] at h1
          exact h1
        next d1 heq =>
          have h1 := ih .verifyPageBreak d
          rw [heq] at h1
          split
          · exact h1
          · split
            · exact h1
            · split
              · exact h1
              · exact pres_trans h1
                  (pres_trans (pres_emit d1 _ (by simp [Event.page]))
                    (pres_setCur _ _))
    | addSection text style =>
        show Pres d ((execStep env (exec env n) (.addSection text style) d).doc)
        simp only [execStep]
        split
        · exact pres_refl d
        · split
          next e d1 heq =>
            have h1 := ih .verifyPageBreak d
            rw [heq] at h1
            exact h1
          next d1 heq =>
            have h1 := ih .verifyPageBreak d
            rw [heq] at h1
            exact pres_trans h1 (ih _ d1)
    | sectionLoop style text pointer hasSplit =>
        show Pres d ((execStep env (exec env n)
          (.sectionLoop style text pointer hasSplit) d).doc)
        simp only [execStep]
        split
        · -- the candidate fits and is drawn
          split
          · -- hasSplit: a page break and a recursive continuation follow
            exact pres_trans
              (pres_trans (pres_emit d _ (by simp [Event.page]))
                (pres_setCur _ _))
              (pres_seq env n ih .newPage
                (.addSection (joinSpace ((splitSpace text).drop (pointer + 1)))
                  style) _)
          · exact pres_trans (pres_emit d _ (by simp [Event.page]))
              (pres_setCur _ _)
        · split
          · exact ih _ d
          · split
            next e d3 heq =>
              have h3 := ih .newPage d
              rw [heq] at h3
              exact h3
            next d3 heq =>
              have h3 := ih .newPage d
              rw [heq] at h3
              exact pres_trans h3 (ih _ d3)
    | addTable data cw style position wrap =>
        show Pres d ((execStep env (exec env n)
          (.addTable data cw style position wrap) d).doc)
        simp only [execStep]
        split
        next e d1 heq =>
          have h1 := ih .verifyPageBreak d
          rw [heq] at h1
          exact h1
        next d1 heq =>
          have h1 := ih .verifyPageBreak d
          rw [heq] at h1
          split
          · exact h1
          · exact pres_trans h1 (ih _ d1)
    | tableLoop data dataSend cw tsd style position wrap pointer =>
        show Pres d ((execStep env (exec env n)
          (.tableLoop data dataSend cw tsd style position wrap pointer) d).doc)
        simp only [execStep]
        split
        · split
          · exact ih _ d
          · split
            next e d1 heq =>
              have h1 := ih .newPage d
              rw [heq] at h1
              exact h1
            next d1 heq =>
              have h1 := ih .newPage d
              rw [heq] at h1
              exact pres_trans h1 (ih _ d1)
        · split
          · split
            next e d1 heq =>
              have h1 := ih .newPage d
              rw [heq] at h1
              exact h1
            next d1 heq =>
              have h1 := ih .newPage d
              rw [heq] at h1
              exact pres_trans h1 (ih _ d1)
          · exact pres_trans
              (pres_trans (pres_emit d _ (by simp [Event.page]))
                (pres_setCur _ _))
              (ih _ _)
    | tableCont data cw tsd style position wrap pointer sendLen =>
        show Pres d ((execStep env (exec env n)
          (.tableCont data cw tsd style position wrap pointer sendLen) d).doc)
        simp only [execStep]
        split
        · split
          · exact ih _ d
          · exact ih _ d
        · exact pres_refl d

end PDFMaker

namespace PDFMaker

theorem mem_emit_events {d : Doc} {e ev : Event} (h : ev ∈ (emit d e).events) :
    ev ∈ d.events ∨ ev = e := by
  simp only [emit, List.mem_append, List.mem_singleton] at h
  exact h

theorem addPageNumber_events (env : Env) (d : Doc) :
    ∀ ev ∈ (addPageNumber env d).events, ev ∈ d.events ∨ ev.isContent = false := by
  unfold addPageNumber
  split
  · intro ev hev
    rcases mem_emit_events hev with h | rfl
    · exact Or.inl h
    · exact Or.inr rfl
  · intro ev hev
    exact Or.inl hev

theorem contentExt_trans {a b c : Doc}
    (h1 : ∀ ev ∈ b.events, ev ∈ a.events ∨ ev.isContent = false)
    (h2 : ∀ ev ∈ c.events, ev ∈ b.events ∨ ev.isContent = false) :
    ∀ ev ∈ c.events, ev ∈ a.events ∨ ev.isContent = false := by
  intro ev hev
  rcases h2 ev hev with hb | hc
  · exact h1 ev hb
  · exact Or.inr hc

/-- The page-finalization family (`new_page`, `verify_page_break`,
template replay, `add_image`) never draws flow content: every event it
appends is an image, page-number or commit event. -/
theorem exec_noContent (env : Env) :
    ∀ fuel cmd d, cmd.isInternal = true →
      ∀ ev ∈ (exec env fuel cmd d).doc.events,
        ev ∈ d.events ∨ ev.isContent = false := by
  intro fuel
  induction fuel with
  | zero => intro cmd d _ ev hev; exact Or.inl hev
  | succ n ih =>
    intro cmd d hInt
    cases cmd with
    | newPage =>
        simp only [exec, execStep]
        split
        next e d2 heq =>
          have h2 := ih (.templateLoop (addPageNumber env d).templateImages)
            (addPageNumber env d) rfl
          rw [heq] at h2
          exact contentExt_trans (addPageNumber_events env d) h2
        next d2 heq =>
          have h2 := ih (.templateLoop (addPageNumber env d).templateImages)
            (addPageNumber env d) rfl
          rw [heq] at h2
          intro ev hev
          replace hev : ev ∈ (emit d2 (Event.pageCommitted d2.pages)).events :=
            hev
          rcases mem_emit_events hev with h | rfl
          · exact contentExt_trans (addPageNumber_events env d) h2 ev h
          · exact Or.inr rfl
    | verifyPageBreak =>
        simp only [exec, execStep]
        split
        · exact ih .newPage d rfl
        · intro ev hev; exact Or.inl hev
    | templateLoop imgs =>
        cases imgs with
        | nil => intro ev hev; exact Or.inl hev
        | cons p rest =>
            obtain ⟨nm, t⟩ := p
            simp only [exec, execStep]
            split
            next e d1 heq =>
              have h1 := ih (.addImage t.file t.sizeProportions t.width
                t.height "absolute" t.posx t.posy t.axisx t.axisy) d rfl
              rw [heq] at h1
              exact h1
            next d1 heq =>
              have h1 := ih (.addImage t.file t.sizeProportions t.width
                t.height "absolute" t.posx t.posy t.axisx t.axisy) d rfl
              rw [heq] at h1
              exact contentExt_trans h1 (ih (.templateLoop rest) d1 rfl)
    | addImage file sp w h position posx posy axisx axisy =>
        simp only [exec, execStep]
        split
        next e d1 heq =>
          have h1 := ih .verifyPageBreak d rfl
          rw [heq] at h1
          exact h1
        next d1 heq =>
          have h1 := ih .verifyPageBreak d rfl
          rw [heq] at h1
          split
          · exact h1
          · split
            · exact h1
            · split
              · exact h1
              · intro ev hev
                rcases mem_emit_events hev with hin | rfl
                · exact h1 ev hin
                · exact Or.inr rfl
    | addSection text style => simp [Cmd.isInternal] at hInt
    | sectionLoop style text pointer hasSplit => simp [Cmd.isInternal] at hInt
    | addTable data cw style position wrap => simp [Cmd.isInternal] at hInt
    | tableLoop data dataSend cw tsd style position wrap pointer =>
        simp [Cmd.isInternal] at hInt
    | tableCont data cw tsd style position wrap pointer sendLen =>
        simp [Cmd.isInternal] at hInt

theorem addPageNumber_pages (env : Env) (d : Doc) :
    (addPageNumber env d).pages = d.pages := by
  unfold addPageNumber; split <;> rfl

theorem addPageNumber_pageCount (env : Env) (d : Doc) :
    (addPageNumber env d).pageCount = d.pageCount := by
  unfold addPageNumber; split <;> rfl

theorem addPageNumber_pageNumber (env : Env) (d : Doc) :
    (addPageNumber env d).pageNumber = d.pageNumber := by
  unfold addPageNumber; split <;> rfl

theorem addPageNumber_currentHeight (env : Env) (d : Doc) :
    (addPageNumber env d).currentHeight = d.currentHeight := by
  unfold addPageNumber; split <;> rfl

/-- Outcome of a successful `new_page`: the cursor is reset to 0, at
least one page is committed, and the page number is unchanged when
numbering is off and strictly advanced when it is on. -/
theorem newPage_ok (env : Env) {fuel : ℕ} {d d' : Doc}
    (h : exec env fuel .newPage d = .ok d') :
    d'.currentHeight = 0 ∧ d.pages + 1 ≤ d'.pages ∧
    (d.pageCount = false → d'.pageNumber = d.pageNumber) ∧
    (d.pageCount = true → d.pageNumber + 1 ≤ d'.pageNumber) := by
  cases fuel with
  | zero => simp [exec] at h
  | succ n =>
      simp only [exec, execStep] at h
      cases htl : exec env n
          (.templateLoop (addPageNumber env d).templateImages)
          (addPageNumber env d) with
      | err e d2 => rw [htl] at h; cases h
      | ok d2 =>
          rw [htl] at h
          have hP := exec_pres env n
            (.templateLoop (addPageNumber env d).templateImages)
            (addPageNumber env d)
          rw [htl] at hP
          simp only [Res.doc] at hP
          cases h
          refine ⟨rfl, ?_, ?_, ?_⟩
          · show d.pages + 1 ≤ (emit d2 (Event.pageCommitted d2.pages)).pages + 1
            have : d.pages ≤ d2.pages := by
              have := hP.pages_le
              rwa [addPageNumber_pages] at this
            simpa [emit] using this
          · intro hoff
            show (if (emit d2 (Event.pageCommitted d2.pages)).pageCount then _
                  else (emit d2 (Event.pageCommitted d2.pages)).pageNumber) =
              d.pageNumber
            have hc2 : d2.pageCount = false := by
              have := hP.pageCount_eq
              rw [addPageNumber_pageCount] at this
              rw [this, hoff]
            have hn2 : d2.pageNumber = d.pageNumber := by
              have := hP.pageNumber_frozen
              rw [addPageNumber_pageCount, addPageNumber_pageNumber] at this
              exact this hoff
            simp [emit, hc2, hn2]
          · intro hon
            show d.pageNumber + 1 ≤
              (if (emit d2 (Event.pageCommitted d2.pages)).pageCount then
                 (emit d2 (Event.pageCommitted d2.pages)).pageNumber + 1
               else (emit d2 (Event.pageCommitted d2.pages)).pageNumber)
            have hc2 : d2.pageCount = true := by
              have := hP.pageCount_eq
              rw [addPageNumber_pageCount] at this
              rw [this, hon]
            have hn2 : d.pageNumber ≤ d2.pageNumber := by
              have := hP.pageNumber_le
              rwa [addPageNumber_pageNumber] at this
            simp only [emit, hc2, if_true]
            omega


theorem wrapRows_length (tsd : TableStyleRec) :
    ∀ i data, (wrapRows tsd i data).length = data.length := by
  intro i data
  induction data generalizing i with
  | nil => rfl
  | cons row rest ihr => simp [wrapRows, ihr]

theorem wrapCells_length (tsd : TableStyleRec) (wrap : Bool)
    (data : List (List String)) :
    (wrapCells tsd wrap data).length = data.length := by
  unfold wrapCells
  split
  · exact wrapRows_length tsd 0 data
  · simp

theorem wrapCells_head {tsd : TableStyleRec} {wrap : Bool}
    {data : List (List String)} {hrow : List String}
    (hh : data.head? = some hrow) :
    (wrapCells tsd wrap data).head? = some (hdrRow tsd wrap hrow) := by
  cases data with
  | nil => simp at hh
  | cons r rest =>
      simp only [List.head?_cons, Option.some.injEq] at hh
      subst hh
      unfold wrapCells hdrRow
      cases wrap with
      | true =>
          simp only [if_true]
          simp only [wrapRows, wrapCell, List.head?_cons, Option.some.injEq]
          refine List.map_congr_left ?_
          intro a _
          cases h : tsd.header <;> simp [wrapCell, h]
      | false => simp

theorem take_head? {α : Type} (l : List α) (p : ℕ) (hp : 1 ≤ p) :
    (l.take p).head? = l.head? := by
  cases l with
  | nil => simp
  | cons a t =>
      cases p with
      | zero => omega
      | succ m => simp

theorem c2ok_of_not_content {tsd : TableStyleRec} {wrap : Bool}
    {hrow : List String} {ev : Event} (h : ev.isContent = false) :
    c2ok tsd wrap hrow ev = true := by
  cases ev <;> simp_all [c2ok, Event.isContent]

theorem eventsChain {a b c : Doc} {Q : Event → Prop}
    (h1 : ∀ ev ∈ b.events, ev ∈ a.events ∨ Q ev)
    (h2 : ∀ ev ∈ c.events, ev ∈ b.events ∨ Q ev) :
    ∀ ev ∈ c.events, ev ∈ a.events ∨ Q ev := by
  intro ev hev
  rcases h2 ev hev with hb | hq
  · exact h1 ev hb
  · exact Or.inr hq

/-- Header repetition invariant of `add_table`, proved simultaneously
for the entry point, the backward-search loop and the continuation step:
with a header style and at least two rows, every table slice ever handed
to the drawing surface has at least two rows and starts with the header
row content. -/
theorem table_events (env : Env) : ∀ fuel : ℕ,
    (∀ d data cw style position wrap tsd hrow,
      assoc d.tableStyleList style = some tsd → tsd.header = true →
      data.head? = some hrow → 2 ≤ data.length →
      ∀ ev ∈ (exec env fuel (.addTable data cw style position wrap) d).doc.events,
        ev ∈ d.events ∨ c2ok tsd wrap hrow ev = true) ∧
    (∀ d data dataSend cw tsd style position wrap pointer hrow,
      assoc d.tableStyleList style = some tsd → tsd.header = true →
      data.head? = some hrow → 2 ≤ data.length →
      dataSend = wrapCells tsd wrap data →
      1 ≤ pointer → pointer ≤ data.length →
      ∀ ev ∈ (exec env fuel
          (.tableLoop data dataSend cw tsd style position wrap pointer)
          d).doc.events,
        ev ∈ d.events ∨ c2ok tsd wrap hrow ev = true) ∧
    (∀ d data cw tsd style position wrap pointer sendLen hrow,
      assoc d.tableStyleList style = some tsd → tsd.header = true →
      data.head? = some hrow → 2 ≤ data.length →
      sendLen = data.length → 1 ≤ pointer → pointer ≤ data.length →
      ∀ ev ∈ (exec env fuel
          (.tableCont data cw tsd style position wrap pointer sendLen)
          d).doc.events,
        ev ∈ d.events ∨ c2ok tsd wrap hrow ev = true) := by
  intro fuel
  induction fuel with
  | zero =>
      refine ⟨?_, ?_, ?_⟩ <;>
        · intros
          next hev => exact Or.inl hev
  | succ n ih =>
    obtain ⟨ihT, ihL, ihC⟩ := ih
    have noC : ∀ cmd d, Cmd.isInternal cmd = true →
        ∀ (tsd : TableStyleRec) (wrap : Bool) (hrow : List String),
        ∀ ev ∈ (exec env n cmd d).doc.events,
          ev ∈ d.events ∨ c2ok tsd wrap hrow ev = true := by
      intro cmd d hi tsd wrap hrow ev hev
      rcases exec_noContent env n cmd d hi ev hev with hin | hc
      · exact Or.inl hin
      · exact Or.inr (c2ok_of_not_content hc)
    refine ⟨?_, ?_, ?_⟩
    · -- addTable
      intro d data cw style position wrap tsd hrow hA hH hhead hlen
      simp only [exec, execStep]
      split
      next e d1 heq =>
        have h1 := noC .verifyPageBreak d rfl tsd wrap hrow
        rw [heq] at h1
        exact h1
      next d1 heq =>
        have h1 := noC .verifyPageBreak d rfl tsd wrap hrow
        rw [heq] at h1
        have hP := exec_pres env n .verifyPageBreak d
        rw [heq] at hP
        simp only [Res.doc] at hP h1
        have hA1 : assoc d1.tableStyleList style = some tsd := by
          rw [hP.tableStyleList_eq, hA]
        split
        · rename_i heqA
          rw [hA1] at heqA
          cases heqA
        · rename_i tsd2 heqA
          rw [hA1] at heqA
          injection heqA with heqA
          subst heqA
          exact eventsChain h1
            (ihL d1 data (wrapCells tsd wrap data) (resolveColW d1 data cw)
              tsd style position wrap data.length hrow hA1 hH hhead hlen rfl
              (by omega) (le_refl _))
    · -- tableLoop
      intro d data dataSend cw tsd style position wrap pointer hrow
        hA hH hhead hlen hSend hp1 hpl
      simp only [exec, execStep]
      split
      · -- the slice overflows
        split
        · -- shrink the slice
          exact ihL d data dataSend cw tsd style position wrap (pointer - 1)
            hrow hA hH hhead hlen hSend (by omega) (by omega)
        · -- page break, then restart with the full row set
          split
          next e d1 heq =>
            have h1 := noC .newPage d rfl tsd wrap hrow
            rw [heq] at h1
            exact h1
          next d1 heq =>
            have h1 := noC .newPage d rfl tsd wrap hrow
            rw [heq] at h1
            have hP := exec_pres env n .newPage d
            rw [heq] at hP
            simp only [Res.doc] at hP h1
            have hA1 : assoc d1.tableStyleList style = some tsd := by
              rw [hP.tableStyleList_eq, hA]
            exact eventsChain h1
              (ihL d1 data dataSend cw tsd style position wrap dataSend.length
                hrow hA1 hH hhead hlen hSend
                (by rw [hSend, wrapCells_length]; omega)
                (by rw [hSend, wrapCells_length]))
      · -- the slice fits
        split
        · -- header-only slice: skip drawing, page break, continuation
          split
          next e d1 heq =>
            have h1 := noC .newPage d rfl tsd wrap hrow
            rw [heq] at h1
            exact h1
          next d1 heq =>
            have h1 := noC .newPage d rfl tsd wrap hrow
            rw [heq] at h1
            have hP := exec_pres env n .newPage d
            rw [heq] at hP
            simp only [Res.doc] at hP h1
            have hA1 : assoc d1.tableStyleList style = some tsd := by
              rw [hP.tableStyleList_eq, hA]
            exact eventsChain h1
              (ihC d1 data cw tsd style position wrap pointer dataSend.length
                hrow hA1 hH hhead hlen (by rw [hSend, wrapCells_length]) hp1 hpl)
        · -- draw the slice, then the continuation
          next hnskip =>
          have hp2 : 2 ≤ pointer := by
            rcases Nat.lt_or_ge pointer 2 with hlt | hge
            · exfalso
              apply hnskip
              refine ⟨by omega, by omega, hH⟩
            · exact hge
          have hok : c2ok tsd wrap hrow
              (.tableDrawn d.pages (dataSend.take pointer)
                (if position = "default" then d.marginLeft
                 else (d.width - env.tableW (dataSend.take pointer) cw.resolved) / 2)
                (d.height - d.marginTop - d.currentHeight -
                  env.tableH (dataSend.take pointer) cw.resolved)) = true := by
            unfold c2ok
            rw [Bool.and_eq_true, decide_eq_true_iff, decide_eq_true_iff]
            constructor
            · rw [hSend]
              simp only [List.length_take, wrapCells_length]
              omega
            · rw [hSend, take_head? _ _ (by omega), wrapCells_head hhead]
          have hstep : ∀ ev ∈ (emit d (.tableDrawn d.pages (dataSend.take pointer)
                (if position = "default" then d.marginLeft
                 else (d.width - env.tableW (dataSend.take pointer) cw.resolved) / 2)
                (d.height - d.marginTop - d.currentHeight -
                  env.tableH (dataSend.take pointer) cw.resolved))).events,
              ev ∈ d.events ∨ c2ok tsd wrap hrow ev = true := by
            intro ev hev
            rcases mem_emit_events hev with hin | rfl
            · exact Or.inl hin
            · exact Or.inr hok
          exact eventsChain hstep
            (ihC _ data cw tsd style position wrap pointer dataSend.length hrow
              hA hH hhead hlen (by rw [hSend, wrapCells_length]) hp1 hpl)
    · -- tableCont
      intro d data cw tsd style position wrap pointer sendLen hrow
        hA hH hhead hlen hsl hp1 hpl
      simp only [exec, execStep]
      split_ifs with hne
      · -- header style: repeat the header row before the remaining rows
        have hlt : pointer < data.length := by omega
        refine ihT d (data.take 1 ++ data.drop pointer) cw style position wrap
          tsd hrow hA hH ?_ ?_
        · cases data with
          | nil => simp at hhead
          | cons r rest =>
              simp only [List.head?_cons, Option.some.injEq] at hhead
              subst hhead
              simp
        · simp only [List.length_append, List.length_take, List.length_drop]
          omega
      · intro ev hev; exact Or.inl hev



theorem textFresh_of_not_content {p : ℕ} {ev : Event}
    (h : ev.isContent = false) : textFresh p ev = true := by
  cases ev <;> simp_all [textFresh, Event.isContent]

theorem tableFresh_of_not_content {p : ℕ} {ev : Event}
    (h : ev.isContent = false) : tableFresh p ev = true := by
  cases ev <;> simp_all [tableFresh, Event.isContent]

theorem textFresh_of_page {p q : ℕ} {ev : Event} (hq : p < q)
    (h : q ≤ ev.page) : textFresh p ev = true := by
  cases ev
  case textDrawn =>
    simp only [textFresh, Event.page] at *
    simp only [decide_eq_true_iff]
    omega
  all_goals rfl

theorem tableFresh_of_page {p q : ℕ} {ev : Event} (hq : p < q)
    (h : q ≤ ev.page) : tableFresh p ev = true := by
  cases ev
  case tableDrawn =>
    simp only [tableFresh, Event.page] at *
    simp only [decide_eq_true_iff]
    omega
  all_goals rfl

/-- On an exactly full page (cursor equal to the content height) with
strictly positive text measurements, the text placement loop never draws
on the current page: every text-draw event it ever emits lies on a later
page. -/
theorem sectionLoop_full (env : Env)
    (hpos : ∀ s t, 0 < env.wrapH s t) :
    ∀ fuel d style text pointer hasSplit,
      d.currentHeight = d.height - d.marginTop - d.marginBottom →
      ∀ ev ∈ (exec env fuel
          (.sectionLoop style text pointer hasSplit) d).doc.events,
        ev ∈ d.events ∨ textFresh d.pages ev = true := by
  intro fuel
  induction fuel with
  | zero => intro d _ _ _ _ _ ev hev; exact Or.inl hev
  | succ n ih =>
    intro d style text pointer hasSplit hfull
    have hov : d.currentHeight + d.marginTop + d.marginBottom +
        env.wrapH style text > d.height := by
      have := hpos style text
      omega
    simp only [exec, execStep]
    rw [if_neg (not_not_intro hov)]
    split
    · -- shrink the candidate, same page state
      exact ih d style _ (pointer - 1) true hfull
    · -- page break, then the whole placement restarts on the fresh page
      split
      next e d3 heq =>
        intro ev hev
        have h3 := exec_noContent env n .newPage d rfl
        rw [heq] at h3
        rcases h3 ev hev with hin | hc
        · exact Or.inl hin
        · exact Or.inr (textFresh_of_not_content hc)
      next d3 heq =>
        intro ev hev
        have h3 := exec_noContent env n .newPage d rfl
        rw [heq] at h3
        simp only [Res.doc] at h3
        have hnp := newPage_ok env heq
        have hP := exec_pres env n
          (.sectionLoop style text ((splitSpace text).length - 1) false) d3
        rcases hP.events_ext ev hev with hin3 | hpage
        · rcases h3 ev hin3 with hin | hc
          · exact Or.inl hin
          · exact Or.inr (textFresh_of_not_content hc)
        · exact Or.inr (textFresh_of_page
            (show d.pages < d3.pages by omega) hpage)

/-- On an exactly full page with strictly positive table measurements,
the table placement loop never draws on the current page. -/
theorem tableLoop_full (env : Env)
    (hpos : ∀ rows cwr, 0 < env.tableH rows cwr) :
    ∀ fuel d data dataSend cw tsd style position wrap pointer,
      d.currentHeight = d.height - d.marginTop - d.marginBottom →
      ∀ ev ∈ (exec env fuel
          (.tableLoop data dataSend cw tsd style position wrap pointer)
          d).doc.events,
        ev ∈ d.events ∨ tableFresh d.pages ev = true := by
  intro fuel
  induction fuel with
  | zero => intro d _ _ _ _ _ _ _ _ _ ev hev; exact Or.inl hev
  | succ n ih =>
    intro d data dataSend cw tsd style position wrap pointer hfull
    have hov : d.marginTop + d.currentHeight +
        env.tableH (dataSend.take pointer) cw.resolved >
        d.height - d.marginBottom := by
      have := hpos (dataSend.take pointer) cw.resolved
      omega
    simp only [exec, execStep]
    rw [if_pos hov]
    split
    · -- shrink the slice, same page state
      exact ih d data dataSend cw tsd style position wrap (pointer - 1) hfull
    · -- page break, then restart with the full row set
      split
      next e d1 heq =>
        intro ev hev
        have h1 := exec_noContent env n .newPage d rfl
        rw [heq] at h1
        rcases h1 ev hev with hin | hc
        · exact Or.inl hin
        · exact Or.inr (tableFresh_of_not_content hc)
      next d1 heq =>
        intro ev hev
        have h1 := exec_noContent env n .newPage d rfl
        rw [heq] at h1
        simp only [Res.doc] at h1
        have hnp := newPage_ok env heq
        have hP := exec_pres env n
          (.tableLoop data dataSend cw tsd style position wrap
            dataSend.length) d1
        rcases hP.events_ext ev hev with hin1 | hpage
        · rcases h1 ev hin1 with hin | hc
          · exact Or.inl hin
          · exact Or.inr (tableFresh_of_not_content hc)
        · exact Or.inr (tableFresh_of_page
            (show d.pages < d1.pages by omega) hpage)

theorem verify_noBreak (env : Env) {n : ℕ} {d : Doc}
    (hnb : ¬ (d.currentHeight + d.marginTop + d.marginBottom > d.height))
    (hn : 1 ≤ n) :
    exec env n .verifyPageBreak d = .ok d := by
  cases n with
  | zero => omega
  | succ m =>
      simp only [exec, execStep]
      rw [if_neg hnb]

/-- On an exactly full page with strictly positive text measurements,
`add_section` draws all of its text events on later pages. -/
theorem addSection_full (env : Env)
    (hpos : ∀ s t, 0 < env.wrapH s t) (fuel : ℕ) (d : Doc)
    (text style : String)
    (hfull : d.currentHeight = d.height - d.marginTop - d.marginBottom) :
    ∀ ev ∈ (exec env fuel (.addSection text style) d).doc.events,
      ev ∈ d.events ∨ textFresh d.pages ev = true := by
  cases fuel with
  | zero => intro ev hev; exact Or.inl hev
  | succ n =>
      simp only [exec, execStep]
      split
      · intro ev hev; exact Or.inl hev
      · split
        next e d1 heq =>
          intro ev hev
          have h1 := exec_noContent env n .verifyPageBreak d rfl
          rw [heq] at h1
          rcases h1 ev hev with hin | hc
          · exact Or.inl hin
          · exact Or.inr (textFresh_of_not_content hc)
        next d1 heq =>
          cases n with
          | zero => simp [exec] at heq
          | succ m =>
              rw [verify_noBreak env (by omega) (by omega)] at heq
              injection heq with heq
              subst heq
              exact sectionLoop_full env hpos (m + 1) d style text
                ((splitSpace text).length - 1) false hfull

/-- On an exactly full page with strictly positive table measurements,
`add_table` draws all of its table events on later pages. -/
theorem addTable_full (env : Env)
    (hpos : ∀ rows cwr, 0 < env.tableH rows cwr) (fuel : ℕ) (d : Doc)
    (data : List (List String)) (cw : ColW) (style position : String)
    (wrap : Bool)
    (hfull : d.currentHeight = d.height - d.marginTop - d.marginBottom) :
    ∀ ev ∈ (exec env fuel (.addTable data cw style position wrap) d).doc.events,
      ev ∈ d.events ∨ tableFresh d.pages ev = true := by
  cases fuel with
  | zero => intro ev hev; exact Or.inl hev
  | succ n =>
      simp only [exec, execStep]
      split
      next e d1 heq =>
        intro ev hev
        have h1 := exec_noContent env n .verifyPageBreak d rfl
        rw [heq] at h1
        rcases h1 ev hev with hin | hc
        · exact Or.inl hin
        · exact Or.inr (tableFresh_of_not_content hc)
      next d1 heq =>
        cases n with
        | zero => simp [exec] at heq
        | succ m =>
            rw [verify_noBreak env (by omega) (by omega)] at heq
            injection heq with heq
            subst heq
            split
            · intro ev hev; exact Or.inl hev
            · exact tableLoop_full env hpos (m + 1) d data _ _ _ style
                position wrap data.length hfull

/-- Successful evaluation of `add_image` when no page break triggers and
all arguments are valid: the image event is emitted on the current page
and the cursor advances by the drawn height, in every placement mode. -/
theorem addImage_ok_eval (env : Env) {m : ℕ} (d : Doc) (file : String)
    (sp w h : ℤ) (position : String) (posx posy : ℤ) (axisx axisy : String)
    (hm : 2 ≤ m)
    (hnb : ¬ (d.currentHeight + d.marginTop + d.marginBottom > d.height))
    (hsp : 0 < sp) (hw : 0 < w) (hh : 0 < h)
    (hposition : position = "center" ∨ position = "absolute" ∨
      position = "default")
    {iw ih : ℤ} (hdec : env.imgSize file = some (iw, ih)) :
    exec env m (.addImage file sp w h position posx posy axisx axisy) d =
      .ok { emit d (.imageDrawn d.pages file
              (imgPos d position axisx axisy (iw * (sp * w)) (ih * (sp * h))
                posx posy).1
              (imgPos d position axisx axisy (iw * (sp * w)) (ih * (sp * h))
                posx posy).2
              (iw * (sp * w)) (ih * (sp * h))) with
            currentHeight := d.currentHeight + ih * (sp * h) } := by
  cases m with
  | zero => omega
  | succ k =>
      have h1 : ¬ (sp ≤ 0 ∨ w ≤ 0 ∨ h ≤ 0) := by
        push_neg
        exact ⟨hsp, hw, hh⟩
      simp only [exec, execStep,
        verify_noBreak env hnb (show 1 ≤ k by omega), if_neg h1,
        if_neg (not_not_intro hposition), hdec]
      rfl



theorem addPageNumber_templateImages (env : Env) (d : Doc) :
    (addPageNumber env d).templateImages = d.templateImages := by
  unfold addPageNumber; split <;> rfl

theorem addPageNumber_width (env : Env) (d : Doc) :
    (addPageNumber env d).width = d.width := by
  unfold addPageNumber; split <;> rfl

theorem addPageNumber_height (env : Env) (d : Doc) :
    (addPageNumber env d).height = d.height := by
  unfold addPageNumber; split <;> rfl

theorem addPageNumber_marginTop (env : Env) (d : Doc) :
    (addPageNumber env d).marginTop = d.marginTop := by
  unfold addPageNumber; split <;> rfl

theorem addPageNumber_marginBottom (env : Env) (d : Doc) :
    (addPageNumber env d).marginBottom = d.marginBottom := by
  unfold addPageNumber; split <;> rfl

theorem addPageNumber_events_eq (env : Env) (d : Doc) :
    (addPageNumber env d).events = d.events ++ pageNumEvents env d := by
  unfold addPageNumber pageNumEvents
  split
  · rfl
  · simp

theorem tmplEvent_congr (env : Env) (d1 d : Doc) (hw : d1.width = d.width)
    (hh : d1.height = d.height) (hp : d1.pages = d.pages) (t : TemplateImg) :
    tmplEvent env d1 t = tmplEvent env d t := by
  unfold tmplEvent setAbsolutePositions
  cases henv : env.imgSize t.file with
  | none => rw [hp]
  | some pr =>
      obtain ⟨iw, ihg⟩ := pr
      rw [hw, hh, hp]

theorem tmplEvents_congr (env : Env) (d1 d : Doc) (hw : d1.width = d.width)
    (hh : d1.height = d.height) (hp : d1.pages = d.pages) :
    ∀ l, tmplEvents env d1 l = tmplEvents env d l := by
  intro l
  induction l with
  | nil => rfl
  | cons p rest ihl =>
      obtain ⟨nm, t⟩ := p
      simp only [tmplEvents, ihl, tmplEvent_congr env d1 d hw hh hp]

/-- Exact evaluation of the template replay loop of `new_page` under the
`replayOK` side condition: each stored image is drawn via `add_image` in
absolute mode, in registration order, and the cursor grows by the summed
drawn heights (the unconditional cursor advance of `add_image`). -/
theorem templateLoop_replay (env : Env) :
    ∀ (l : List (String × TemplateImg)) (fuel : ℕ) (d : Doc),
      replayOK env d.height d.marginTop d.marginBottom d.currentHeight l =
        true →
      l.length + 2 ≤ fuel →
      exec env fuel (.templateLoop l) d =
        .ok { d with currentHeight := d.currentHeight + tmplHeights env l,
                     events := d.events ++ tmplEvents env d l } := by
  intro l
  induction l with
  | nil =>
      intro fuel d _ hfuel
      cases fuel with
      | zero => omega
      | succ m =>
          simp only [exec, execStep, tmplHeights, tmplEvents, add_zero,
            List.append_nil]
  | cons p rest ihl =>
      obtain ⟨nm, t⟩ := p
      intro fuel d hOK hfuel
      cases fuel with
      | zero => omega
      | succ m =>
          cases hdec : env.imgSize t.file with
          | none =>
              simp only [replayOK, hdec] at hOK
              cases hOK
          | some pr =>
              obtain ⟨iw, ihg⟩ := pr
              simp only [replayOK, hdec, Bool.and_eq_true,
                decide_eq_true_iff] at hOK
              have hnb := hOK.1.1.1.1
              have hsp := hOK.1.1.1.2
              have hw := hOK.1.1.2
              have hh := hOK.1.2
              have hrest := hOK.2
              have hTH : tmplHeight env t =
                  ihg * (t.sizeProportions * t.height) := by
                unfold tmplHeight
                rw [hdec]
              have hlen : rest.length + 3 ≤ m + 1 := by
                simpa [List.length_cons, Nat.add_comm] using hfuel
              rw [hTH] at hrest
              simp only [exec, execStep]
              cases haddi : exec env m (.addImage t.file t.sizeProportions
                  t.width t.height "absolute" t.posx t.posy t.axisx t.axisy)
                  d with
              | err e d1 =>
                  rw [addImage_ok_eval env d t.file t.sizeProportions t.width
                    t.height "absolute" t.posx t.posy t.axisx t.axisy
                    (show 2 ≤ m by omega) hnb hsp hw hh (Or.inr (Or.inl rfl))
                    hdec] at haddi
                  cases haddi
              | ok d1 =>
              have heval := addImage_ok_eval env d t.file t.sizeProportions
                t.width t.height "absolute" t.posx t.posy t.axisx t.axisy
                (show 2 ≤ m by omega) hnb hsp hw hh (Or.inr (Or.inl rfl)) hdec
              rw [haddi] at heval
              injection heval with hd1
              show exec env m (Cmd.templateLoop rest) d1 = _
              rw [ihl m d1 (by rw [hd1]; exact hrest) (by omega)]
              have hD : d1 = { d with
                  currentHeight := d.currentHeight +
                    ihg * (t.sizeProportions * t.height),
                  events := d.events ++ [Event.imageDrawn d.pages t.file
                    (imgPos d "absolute" t.axisx t.axisy
                      (iw * (t.sizeProportions * t.width))
                      (ihg * (t.sizeProportions * t.height)) t.posx t.posy).1
                    (imgPos d "absolute" t.axisx t.axisy
                      (iw * (t.sizeProportions * t.width))
                      (ihg * (t.sizeProportions * t.height)) t.posx t.posy).2
                    (iw * (t.sizeProportions * t.width))
                    (ihg * (t.sizeProportions * t.height))] } := by
                rw [hd1]
                rfl
              rw [hD]
              have hevRest : tmplEvents env { d with
                  currentHeight := d.currentHeight +
                    ihg * (t.sizeProportions * t.height),
                  events := d.events ++ [Event.imageDrawn d.pages t.file
                    (imgPos d "absolute" t.axisx t.axisy
                      (iw * (t.sizeProportions * t.width))
                      (ihg * (t.sizeProportions * t.height)) t.posx t.posy).1
                    (imgPos d "absolute" t.axisx t.axisy
                      (iw * (t.sizeProportions * t.width))
                      (ihg * (t.sizeProportions * t.height)) t.posx t.posy).2
                    (iw * (t.sizeProportions * t.width))
                    (ihg * (t.sizeProportions * t.height))] } rest =
                  tmplEvents env d rest := by
                apply tmplEvents_congr
                · rfl
                · rfl
                · rfl
              have hev : tmplEvent env d t =
                  .imageDrawn d.pages t.file
                    (imgPos d "absolute" t.axisx t.axisy
                      (iw * (t.sizeProportions * t.width))
                      (ihg * (t.sizeProportions * t.height)) t.posx t.posy).1
                    (imgPos d "absolute" t.axisx t.axisy
                      (iw * (t.sizeProportions * t.width))
                      (ihg * (t.sizeProportions * t.height)) t.posx t.posy).2
                    (iw * (t.sizeProportions * t.width))
                    (ihg * (t.sizeProportions * t.height)) := by
                unfold tmplEvent
                rw [hdec]
                simp [imgPos]
              congr 1
              simp only [Doc.mk.injEq, true_and, and_true]
              refine ⟨?_, ?_⟩
              · rw [tmplHeights, hTH]
                ring
              · rw [hevRest, tmplEvents, hev]
                simp

theorem addPageNumber_eq (env : Env) (d : Doc) :
    addPageNumber env d = { d with events := d.events ++ pageNumEvents env d } := by
  unfold addPageNumber pageNumEvents
  split
  · rfl
  · simp

/-- Exact evaluation of `new_page` under the `replayOK` side condition:
the page number is drawn first (when numbering is on), then every
registered template image is drawn in registration order in absolute
mode, then the page is committed; the cursor resets to 0 and the page
number advances only when numbering is on. -/
theorem newPage_replay (env : Env) {fuel : ℕ} (d : Doc)
    (hOK : replayOK env d.height d.marginTop d.marginBottom d.currentHeight
      d.templateImages = true)
    (hfuel : d.templateImages.length + 3 ≤ fuel) :
    exec env fuel .newPage d =
      .ok { d with
        currentHeight := 0,
        pages := d.pages + 1,
        pageNumber := if d.pageCount then d.pageNumber + 1 else d.pageNumber,
        events := d.events ++ pageNumEvents env d ++
          tmplEvents env d d.templateImages ++ [.pageCommitted d.pages] } := by
  cases fuel with
  | zero => omega
  | succ m =>
      simp only [exec, execStep, addPageNumber_eq]
      have hcond : replayOK env
          ({ d with events := d.events ++ pageNumEvents env d } : Doc).height
          ({ d with events := d.events ++ pageNumEvents env d } : Doc).marginTop
          ({ d with events := d.events ++ pageNumEvents env d } : Doc).marginBottom
          ({ d with events := d.events ++ pageNumEvents env d } : Doc).currentHeight
          d.templateImages = true := hOK
      cases htl : exec env m
          (.templateLoop
            ({ d with events := d.events ++ pageNumEvents env d } : Doc).templateImages)
          { d with events := d.events ++ pageNumEvents env d } with
      | err e d2 =>
          rw [show ({ d with events := d.events ++ pageNumEvents env d } :
              Doc).templateImages = d.templateImages from rfl] at htl
          rw [templateLoop_replay env d.templateImages m _ hcond
            (by omega)] at htl
          cases htl
      | ok d2 =>
          have heval := templateLoop_replay env d.templateImages m
            { d with events := d.events ++ pageNumEvents env d } hcond
            (by omega)
          rw [show ({ d with events := d.events ++ pageNumEvents env d } :
              Doc).templateImages = d.templateImages from rfl] at htl
          rw [htl] at heval
          injection heval with hd2
          have hevT : tmplEvents env
              { d with events := d.events ++ pageNumEvents env d }
              d.templateImages = tmplEvents env d d.templateImages := by
            apply tmplEvents_congr
            · rfl
            · rfl
            · rfl
          subst hd2
          simp only [emit, Doc.mk.injEq, true_and, and_true, hevT,
            List.append_assoc]

theorem storeExt_refl (st : Store) : storeExt st st :=
  ⟨le_refl _, List.take_length st.rows⟩

theorem storeExt_trans {a b c : Store} (h1 : storeExt a b)
    (h2 : storeExt b c) : storeExt a c := by
  obtain ⟨hl1, ht1⟩ := h1
  obtain ⟨hl2, ht2⟩ := h2
  refine ⟨le_trans hl1 hl2, ?_⟩
  have : c.rows.take a.rows.length = (c.rows.take b.rows.length).take
      a.rows.length := by
    rw [List.take_take, min_eq_left hl1]
  rw [this, ht2, ht1]

theorem storeExt_alloc (st : Store) (r : List Cell) :
    storeExt st (allocRow st r).1 := by
  refine ⟨by simp [allocRow], ?_⟩
  simp only [allocRow]
  exact List.take_left _ _

theorem copyRows_ext : ∀ (l : List ℕ) (st : Store),
    storeExt st (copyRows st l).1 ∧
    ∀ a ∈ (copyRows st l).2, st.rows.length ≤ a := by
  intro l
  induction l with
  | nil => intro st; exact ⟨storeExt_refl st, by simp [copyRows]⟩
  | cons i rest ihl =>
      intro st
      constructor
      · exact storeExt_trans (storeExt_alloc st (getRow st i))
          ((ihl (allocRow st (getRow st i)).1).1)
      · intro a ha
        simp only [copyRows, List.mem_cons] at ha
        rcases ha with rfl | ha
        · exact le_refl _
        · have h2 := (ihl (allocRow st (getRow st i)).1).2 a ha
          simp only [allocRow, List.length_append, List.length_cons] at h2
          omega

theorem take_set_of_le {α : Type} :
    ∀ (l : List α) (i : ℕ) (a : α) (n : ℕ), n ≤ i →
      (l.set i a).take n = l.take n := by
  intro l
  induction l with
  | nil => intro i a n _; simp
  | cons x xs ihl =>
      intro i a n hn
      cases i with
      | zero =>
          have : n = 0 := by omega
          subst this
          simp
      | succ j =>
          cases n with
          | zero => simp
          | succ m =>
              simp only [List.set, List.take]
              rw [ihl j a m (by omega)]

theorem wrapRowsH_ext (tsd : TableStyleRec) :
    ∀ (dIds sIds : List ℕ) (i : ℕ) (st : Store) (n : ℕ),
      (∀ a ∈ sIds, n ≤ a) →
      (wrapRowsH tsd i st dIds sIds).rows.length = st.rows.length ∧
      (wrapRowsH tsd i st dIds sIds).rows.take n = st.rows.take n := by
  intro dIds
  induction dIds with
  | nil =>
      intro sIds i st n _
      cases sIds <;> exact ⟨rfl, rfl⟩
  | cons di dr ihd =>
      intro sIds i st n hs
      cases sIds with
      | nil => exact ⟨rfl, rfl⟩
      | cons si sr =>
          have hstep := ihd sr (i + 1)
            (setRow st si ((getRow st di).map (fun c => wrapCell tsd i (cellStr c))))
            n (fun a ha => hs a (List.mem_cons_of_mem si ha))
          refine ⟨?_, ?_⟩
          · rw [wrapRowsH, hstep.1]
            simp [setRow]
          · rw [wrapRowsH, hstep.2]
            simp only [setRow]
            exact take_set_of_le st.rows si _ n (hs si (List.mem_cons_self si sr))

/-- The heap model of `add_table` only allocates fresh row objects and
writes to freshly allocated addresses: the initial heap is a preserved
prefix of the final heap in every operation of the model. -/
theorem execH_storeExt (env : Env) :
    ∀ fuel cmd d st, storeExt st (execH env fuel cmd d st).store := by
  intro fuel
  induction fuel with
  | zero => intro cmd d st; exact storeExt_refl st
  | succ n ih =>
    intro cmd d st
    cases cmd with
    | addTable ids cw style position wrap =>
        simp only [execH, execStepH]
        split
        · exact storeExt_refl st
        · split
          · exact storeExt_refl st
          · rename_i tsd heqA
            have hp := copyRows_ext ids st
            have hq := copyRows_ext (copyRows st ids).2 (copyRows st ids).1
            have hext2 : storeExt st (copyRows (copyRows st ids).1
                (copyRows st ids).2).1 :=
              storeExt_trans hp.1 hq.1
            refine storeExt_trans ?_ (ih _ _ _)
            split
            · -- wrap: the cell writes land on fresh deep-copy addresses
              have hw := wrapRowsH_ext tsd (copyRows st ids).2
                (copyRows (copyRows st ids).1 (copyRows st ids).2).2 0
                (copyRows (copyRows st ids).1 (copyRows st ids).2).1
                st.rows.length
                (fun a ha => le_trans hp.1.1 (hq.2 a ha))
              refine ⟨?_, ?_⟩
              · rw [hw.1]
                exact hext2.1
              · rw [hw.2]
                exact hext2.2
            · exact hext2
    | tableLoop dataIds sendIds cw tsd style position wrap pointer =>
        simp only [execH, execStepH]
        split
        · split
          · exact ih _ _ _
          · split
            · exact storeExt_refl st
            · exact ih _ _ _
        · split
          · split
            · exact storeExt_refl st
            · exact ih _ _ _
          · exact ih _ _ _
    | tableCont dataIds cw tsd style position wrap pointer sendLen =>
        simp only [execH, execStepH]
        split
        · split
          · exact ih _ _ _
          · exact ih _ _ _
        · exact storeExt_refl st

/-! ### Claim theorems -/

/-- C1 (code bug): place_text is claimed to draw all words exactly once
across pages, continuing cut-off words on the next page. The code
reassigns `text` while shrinking, so the continuation
`text.split(" ")[pointer+1:]` is computed from the already shrunk text
and is always empty: on a 100 x 100 page with zero margins where
"A B C" measures 120 high, "A B" 50 and anything shorter fits, the run
draws "A B", finalizes the page, and then draws the empty string on the
next page — the word "C" is silently dropped. -/
theorem c1_cut_words_dropped :
    (addSection 20 env1 doc1 "A B C" "paragraph").isOk = true ∧
    drawnTexts (addSection 20 env1 doc1 "A B C" "paragraph").doc =
      ["A B", ""] := by
  exact ⟨by decide, by decide⟩

/-- C2 (confirmed): for a table placed with a header style and at least
two rows, every slice handed to the drawing surface — on the first page
and on every continuation page — has at least two rows and starts with
the header row content; in particular no page ever renders the header
row alone. -/
theorem c2_header_repetition (fuel : ℕ) (env : Env) (d : Doc)
    (data : List (List String)) (cw : ColW) (style position : String)
    (wrap : Bool) (tsd : TableStyleRec) (hrow : List String)
    (hA : assoc d.tableStyleList style = some tsd) (hH : tsd.header = true)
    (hhead : data.head? = some hrow) (hlen : 2 ≤ data.length) :
    ∀ ev ∈ (addTable fuel env d data cw style position wrap).doc.events,
      ev ∈ d.events ∨ c2ok tsd wrap hrow ev = true :=
  (table_events env fuel).1 d data cw style position wrap tsd hrow hA hH
    hhead hlen

/-- Witness for C2: a four-row table with a header on a page that fits
two 20-high rows; the table spans three pages and each drawn slice is a
header plus one data row. -/
theorem c2_header_repetition_witness :
    (assoc doc2w.tableStyleList "table" = some defaultTableStyle ∧
     defaultTableStyle.header = true ∧
     rows4.head? = some ["h"] ∧ 2 ≤ rows4.length) ∧
    (∀ ev ∈ (addTable 40 env3 doc2w rows4 .noneArg "table" "center"
        true).doc.events,
      ev ∈ doc2w.events ∨ c2ok defaultTableStyle true ["h"] ev = true) :=
  ⟨⟨by decide, by decide, by decide, by decide⟩,
   c2_header_repetition 40 env3 doc2w rows4 .noneArg "table" "center" true
     defaultTableStyle ["h"] (by decide) (by decide) (by decide) (by decide)⟩

/-- Counterexample to C3 as stated: an absolute-mode image also advances
the cursor — `add_image` adds the drawn height unconditionally. On a
fresh document with a 10 x 10 image the cursor moves from 0 to 10. -/
theorem c3_absolute_mode_advances_cursor :
    (addImage 10 env3 doc1 "img.png" 1 1 1 "absolute" 5 5 "left"
      "top").isOk = true ∧
    (addImage 10 env3 doc1 "img.png" 1 1 1 "absolute" 5 5 "left"
      "top").doc.currentHeight = 10 ∧
    doc1.currentHeight = 0 := by
  exact ⟨by decide, by decide, by decide⟩

/-- C3 (amended): on every successful `add_image` call that does not
trigger the overflow pre-check, the cursor advances by exactly the drawn
image height in every placement mode, absolute included. -/
theorem c3_cursor_advances_every_mode (env : Env) {m : ℕ} (d : Doc)
    (file : String) (sp w h : ℤ) (position : String) (posx posy : ℤ)
    (axisx axisy : String) (hm : 2 ≤ m)
    (hnb : ¬ (d.currentHeight + d.marginTop + d.marginBottom > d.height))
    (hsp : 0 < sp) (hw : 0 < w) (hh : 0 < h)
    (hposition : position = "center" ∨ position = "absolute" ∨
      position = "default")
    {iw ih : ℤ} (hdec : env.imgSize file = some (iw, ih)) :
    (addImage m env d file sp w h position posx posy axisx
      axisy).doc.currentHeight = d.currentHeight + ih * (sp * h) ∧
    (addImage m env d file sp w h position posx posy axisx axisy).isOk =
      true := by
  unfold addImage
  rw [addImage_ok_eval env d file sp w h position posx posy axisx axisy hm
    hnb hsp hw hh hposition hdec]
  exact ⟨rfl, rfl⟩

/-- Witness for C3 (amended): absolute mode on a fresh page, drawn
height 10. -/
theorem c3_cursor_advances_witness :
    ((2:ℕ) ≤ 10 ∧
     ¬ (doc1.currentHeight + doc1.marginTop + doc1.marginBottom >
        doc1.height) ∧
     (0:ℤ) < 1 ∧
     env3.imgSize "img.png" = some ((10 : ℤ), (10 : ℤ))) ∧
    ((addImage 10 env3 doc1 "img.png" 1 1 1 "absolute" 5 5 "left"
        "top").doc.currentHeight = doc1.currentHeight + 10 * (1 * 1) ∧
     (addImage 10 env3 doc1 "img.png" 1 1 1 "absolute" 5 5 "left"
        "top").isOk = true) :=
  ⟨⟨by decide, by decide, by decide, by decide⟩,
   c3_cursor_advances_every_mode env3 doc1 "img.png" 1 1 1 "absolute" 5 5
     "left" "top" (by decide) (by decide) (by decide) (by decide) (by decide)
     (Or.inr (Or.inl rfl))
     (show env3.imgSize "img.png" = some ((10 : ℤ), (10 : ℤ)) by decide)⟩

/-- Counterexample to C4 as stated: with numbering on and one registered
template image, `new_page` draws the page number first and the template
image after it — the claim requires all template images to be drawn
before the page number. -/
theorem c4_page_number_drawn_first :
    (newPage 10 env3 doc4).isOk = true ∧
    (newPage 10 env3 doc4).doc.events =
      [Event.pageNumberDrawn 0 1 45 0,
       Event.imageDrawn 0 "logo.png" 5 85 10 10,
       Event.pageCommitted 0] := by
  exact ⟨by decide, by decide⟩

/-- C4 (amended): at every page finalization the page number is drawn
first (when numbering is on), then each registered template image is
re-placed via `add_image` in absolute mode with its stored parameters,
in registration order, and then the page is committed; the cursor resets
to 0. Stated under the `replayOK` side condition (images decode, scale
factors positive, no nested page break during the replay). -/
theorem c4_template_replay_order (env : Env) {fuel : ℕ} (d : Doc)
    (hOK : replayOK env d.height d.marginTop d.marginBottom d.currentHeight
      d.templateImages = true)
    (hfuel : d.templateImages.length + 3 ≤ fuel) :
    newPage fuel env d =
      .ok { d with
        currentHeight := 0,
        pages := d.pages + 1,
        pageNumber := if d.pageCount then d.pageNumber + 1 else d.pageNumber,
        events := d.events ++ pageNumEvents env d ++
          tmplEvents env d d.templateImages ++ [.pageCommitted d.pages] } :=
  newPage_replay env d hOK hfuel

/-- Witness for C4 (amended): the document with one template image and
numbering on. -/
theorem c4_template_replay_witness :
    (replayOK env3 doc4.height doc4.marginTop doc4.marginBottom
       doc4.currentHeight doc4.templateImages = true ∧
     doc4.templateImages.length + 3 ≤ 10) ∧
    newPage 10 env3 doc4 =
      .ok { doc4 with
        currentHeight := 0,
        pages := doc4.pages + 1,
        pageNumber := if doc4.pageCount then doc4.pageNumber + 1
          else doc4.pageNumber,
        events := doc4.events ++ pageNumEvents env3 doc4 ++
          tmplEvents env3 doc4 doc4.templateImages ++
          [.pageCommitted doc4.pages] } :=
  ⟨⟨by decide, by decide⟩,
   c4_template_replay_order env3 doc4 (by decide) (by decide)⟩

/-- Counterexample to C5 as stated: with 80 units consumed on a 100-high
page, "A B" measuring 50 and "A" measuring 30, the backward search
shrinks to "A", reaches cut = 0, finalizes the page — and then restarts
with the shrunk one-word candidate "A", not with the original "A B"
(which would have fit on the fresh page and been drawn whole under the
claim). Only "A" is ever drawn. -/
theorem c5_restart_uses_shrunk_candidate :
    (addSection 20 env1 doc5 "A B" "paragraph").isOk = true ∧
    drawnTexts (addSection 20 env1 doc5 "A B" "paragraph").doc = ["A"] := by
  exact ⟨by decide, by decide⟩

/-- C5 (amended): whenever the backward word search reaches cut = 0 and
the candidate still overflows, the page is finalized (the cursor resets
to 0) and the placement restarts on the fresh page with the CURRENT
candidate text — the full original sequence only when no shrinking has
occurred — with the cut index reset to its word count minus one and the
split flag cleared. -/
theorem c5_restart_behaviour (env : Env) (n : ℕ) (d : Doc)
    (style text : String) (hs : Bool)
    (hov : d.currentHeight + d.marginTop + d.marginBottom +
      env.wrapH style text > d.height) :
    (exec env (n + 1) (.sectionLoop style text 0 hs) d =
      (match exec env n .newPage d with
       | .err e d1 => .err e d1
       | .ok d1 =>
           exec env n
             (.sectionLoop style text ((splitSpace text).length - 1) false)
             d1)) ∧
    ∀ d1, exec env n .newPage d = .ok d1 → d1.currentHeight = 0 := by
  constructor
  · simp only [exec, execStep]
    rw [if_neg (not_not_intro hov), if_neg (by omega)]
  · intro d1 h1
    exact (newPage_ok env h1).1

/-- Witness for C5 (amended): the shrunk candidate "A" overflowing at
cut = 0 on the 80-consumed page. -/
theorem c5_restart_behaviour_witness :
    (doc5.currentHeight + doc5.marginTop + doc5.marginBottom +
      env1.wrapH "paragraph" "A" > doc5.height) ∧
    ((exec env1 11 (.sectionLoop "paragraph" "A" 0 true) doc5 =
      (match exec env1 10 .newPage doc5 with
       | .err e d1 => .err e d1
       | .ok d1 =>
           exec env1 10
             (.sectionLoop "paragraph" "A" ((splitSpace "A").length - 1)
               false) d1)) ∧
     ∀ d1, exec env1 10 .newPage doc5 = .ok d1 → d1.currentHeight = 0) :=
  ⟨by decide, c5_restart_behaviour env1 10 doc5 "paragraph" "A" true
    (by decide)⟩

/-- Counterexample to C6 as stated: on an exactly full page (cursor 80 =
100 - 10 - 10) a 20 x 20 image in default mode is drawn on the CURRENT
page, overlapping the bottom margin (y = -10), and no page is committed
— the strict pre-check does not fire on an exactly full page and
`add_image` has no height-aware check. -/
theorem c6_image_drawn_on_full_page :
    (addImage 10 env6 doc6 "img.png" 1 1 1 "default" 0 0 "left"
      "top").isOk = true ∧
    (addImage 10 env6 doc6 "img.png" 1 1 1 "default" 0 0 "left"
      "top").doc.pages = 0 ∧
    (addImage 10 env6 doc6 "img.png" 1 1 1 "default" 0 0 "left"
      "top").doc.events =
      [Event.imageDrawn 0 "img.png" 0 (-10) 20 20] := by
  exact ⟨by decide, by decide, by decide⟩

/-- C6 (amended): after `add_space` calls bring the cursor to exactly
the content height, the next text or table block is drawn entirely on
later pages, but an image in any mode is drawn on the exactly full
current page without a page break. -/
theorem c6_exactly_full_page (env : Env) (fuel : ℕ) (d : Doc)
    (hfull : d.currentHeight = d.height - d.marginTop - d.marginBottom) :
    C6Concl env fuel d := by
  refine ⟨?_, ?_, ?_⟩
  · intro hpos text style
    exact addSection_full env hpos fuel d text style hfull
  · intro hpos data cw style position wrap
    exact addTable_full env hpos fuel d data cw style position wrap hfull
  · intro file sp w h position posx posy axisx axisy iw ihh hm hsp hw hh
      hposition hdec
    exact addImage_ok_eval env d file sp w h position posx posy axisx axisy
      hm (by omega) hsp hw hh hposition hdec

/-- Witness for C6 (amended): the exactly full 100 x 100 page with
margins 10 and cursor 80. -/
theorem c6_exactly_full_page_witness :
    doc6.currentHeight = doc6.height - doc6.marginTop - doc6.marginBottom ∧
    C6Concl env6 10 doc6 :=
  ⟨by decide, c6_exactly_full_page env6 10 doc6 (by decide)⟩

/-- Counterexample to C7 as stated: with the cursor at 200 (via
`add_space`) and numbering on, `add_image` with an invalid position runs
the overflow pre-check BEFORE validation; the raised error leaves the
document with a committed page, an advanced page number and a reset
cursor — not the pre-call state. -/
theorem c7_state_changed_before_error :
    (addImage 10 env3 doc7 "img.png" 1 1 1 "bogus" 0 0 "left"
      "top").isOk = false ∧
    (addImage 10 env3 doc7 "img.png" 1 1 1 "bogus" 0 0 "left"
      "top").doc.pageNumber = 2 ∧
    (addImage 10 env3 doc7 "img.png" 1 1 1 "bogus" 0 0 "left"
      "top").doc.currentHeight = 0 ∧
    (addImage 10 env3 doc7 "img.png" 1 1 1 "bogus" 0 0 "left"
      "top").doc.pages = 1 ∧
    doc7.pageNumber = 1 ∧ doc7.currentHeight = 200 ∧ doc7.pages = 0 := by
  exact ⟨by decide, by decide, by decide, by decide, by decide, by decide,
    by decide⟩

/-- C7 (amended): `add_section` fails atomically (unknown style is
raised before any state change), while `add_image` and `add_table` run
the overflow pre-check first, so their validation errors are raised in
the state left by the pre-check (which may have finalized a page); no
drawing of the requested content happens before the error. -/
theorem c7_error_atomicity (env : Env) (n : ℕ) (d : Doc) :
    (∀ text style, d.styleList.contains style = false →
      addSection (n + 1) env d text style =
        .err (.valueError
          ("Style " ++ style ++ " is not defined in style_list.")) d) ∧
    (∀ file sp w h position posx posy axisx axisy d1,
      0 < sp → 0 < w → 0 < h →
      ¬ (position = "center" ∨ position = "absolute" ∨
         position = "default") →
      exec env n .verifyPageBreak d = .ok d1 →
      addImage (n + 1) env d file sp w h position posx posy axisx axisy =
        .err (.valueError "Position must be one of center, absolute, default.")
          d1) ∧
    (∀ data cw style position wrap d1,
      assoc d.tableStyleList style = none →
      exec env n .verifyPageBreak d = .ok d1 →
      addTable (n + 1) env d data cw style position wrap =
        .err (.keyError style) d1) := by
  refine ⟨?_, ?_, ?_⟩
  · intro text style hno
    unfold addSection
    simp only [exec, execStep]
    rw [if_pos (by simpa using hno)]
  · intro file sp w h position posx posy axisx axisy d1 hsp hw hh hbad hv
    unfold addImage
    simp only [exec, execStep, hv]
    have h1 : ¬ (sp ≤ 0 ∨ w ≤ 0 ∨ h ≤ 0) := by
      push_neg
      exact ⟨hsp, hw, hh⟩
    rw [if_neg h1, if_pos hbad]
  · intro data cw style position wrap d1 hA hv
    unfold addTable
    simp only [exec, execStep, hv]
    have hP := exec_pres env n .verifyPageBreak d
    rw [hv] at hP
    simp only [Res.doc] at hP
    rw [hP.tableStyleList_eq, hA]

/-- Witness for C7 (amended): unknown style, invalid position and
unknown table style on the overfull document. -/
theorem c7_error_atomicity_witness :
    (doc7.styleList.contains "nope" = false ∧
     ¬ ("bogus" = "center" ∨ "bogus" = "absolute" ∨ "bogus" = "default") ∧
     assoc doc7.tableStyleList "nope" = none ∧
     exec env3 10 .verifyPageBreak doc7 =
       .ok ((exec env3 10 .verifyPageBreak doc7).doc)) ∧
    (addSection 11 env3 doc7 "x" "nope" =
       .err (.valueError "Style nope is not defined in style_list.") doc7 ∧
     addImage 11 env3 doc7 "img.png" 1 1 1 "bogus" 0 0 "left" "top" =
       .err (.valueError "Position must be one of center, absolute, default.")
         ((exec env3 10 .verifyPageBreak doc7).doc) ∧
     addTable 11 env3 doc7 [["a"]] .noneArg "nope" "center" true =
       .err (.keyError "nope") ((exec env3 10 .verifyPageBreak doc7).doc)) :=
  ⟨⟨by decide, by decide, by decide, by decide⟩,
   ⟨(c7_error_atomicity env3 10 doc7).1 "x" "nope" (by decide),
    (c7_error_atomicity env3 10 doc7).2.1 "img.png" 1 1 1 "bogus" 0 0
      "left" "top" _ (by decide) (by decide) (by decide) (by decide)
      (by decide),
    (c7_error_atomicity env3 10 doc7).2.2 [["a"]] .noneArg "nope" "center"
      true _ (by decide) (by decide)⟩⟩

/-- Counterexample to C8 as stated: `add_space` with a negative height
is not a no-op — the cursor moves from 10 down to 5. -/
theorem c8_negative_space_moves_cursor :
    (addSpace doc8 (-5)).currentHeight = 5 ∧ doc8.currentHeight = 10 := by
  exact ⟨by decide, by decide⟩

/-- C8 (amended): `add_space` raises no error and always changes the
cursor by exactly the given height — a no-op for zero, a decrease for a
negative height. -/
theorem c8_space_adds_height (d : Doc) (height : ℤ) :
    (addSpace d height).currentHeight = d.currentHeight + height := rfl

/-- C9 (confirmed): a successful `new_page` always resets the cursor to
0 and commits at least one page, and the page number is unchanged when
numbering is off and strictly advanced when it is on. -/
theorem c9_page_number_invariant (fuel : ℕ) (env : Env) (d d1 : Doc)
    (h : newPage fuel env d = .ok d1) :
    d1.currentHeight = 0 ∧ d.pages + 1 ≤ d1.pages ∧
    (d.pageCount = false → d1.pageNumber = d.pageNumber) ∧
    (d.pageCount = true → d.pageNumber + 1 ≤ d1.pageNumber) :=
  newPage_ok env h

/-- Witness for C9: a fresh document with numbering off; the page is
still created and the cursor reset while the page number stays 1. -/
theorem c9_page_number_invariant_witness :
    newPage 5 env3 doc1 = .ok ((newPage 5 env3 doc1).doc) ∧
    ((newPage 5 env3 doc1).doc.currentHeight = 0 ∧
     doc1.pages + 1 ≤ (newPage 5 env3 doc1).doc.pages ∧
     (doc1.pageCount = false →
       (newPage 5 env3 doc1).doc.pageNumber = doc1.pageNumber) ∧
     (doc1.pageCount = true →
       doc1.pageNumber + 1 ≤ (newPage 5 env3 doc1).doc.pageNumber)) :=
  ⟨by decide,
   c9_page_number_invariant 5 env3 doc1 ((newPage 5 env3 doc1).doc)
     (by decide)⟩

/-- C10 (confirmed): in the heap model of `add_table`, the callers row
objects are never mutated: the initial row heap is a preserved prefix of
the final heap after the call, across all page-break continuations,
wrapping included — only freshly allocated copies are ever written. -/
theorem c10_caller_rows_unchanged (fuel : ℕ) (env : Env) (d : Doc)
    (st : Store) (ids : List ℕ) (cw : ColW) (style position : String)
    (wrap : Bool) :
    st.rows.length ≤
      ((addTableH fuel env d st ids cw style position wrap).store).rows.length ∧
    ((addTableH fuel env d st ids cw style position wrap).store).rows.take
      st.rows.length = st.rows :=
  execH_storeExt env fuel (.addTable ids cw style position wrap) d st

end PDFMaker
